import Mathlib

/-
Verification of the Bootloader-Specification layout of eclean-kernel
(src/ecleankernel/layout/blspec.py): machine-identity resolution, boot
directory probing, and the kernel-grouping algorithm of find_kernels.

Filesystem access is modelled by explicit directory listings and oracle
functions.  The external KernelImage parser (an external collaborator per
the design) is modelled by an optional internal-version field attached to
every scanned boot file: some v models a successful parse returning
internal version v, none models UnrecognizedKernelError.  The module
directory scan performed by ModuleDirLayout.get_module_dict (outside the
given sources) is modelled by passing its result, a mapping from version
key to file records, as an explicit argument and recording the call as a
scan event.
-/

namespace Eclean

/-- Kernel file type tags used by blspec.py (ecleankernel.file.KernelFileType:
KERNEL, INITRAMFS, MODULES, MISC). -/
inductive KernelFileType where
  | kernel
  | initramfs
  | modules
  | misc
  deriving DecidableEq

/-- Filesystem paths, as lists of path components. -/
abbrev Path := List String

/-- Modelled from the spec: the FileRecord variants GenericFile / KernelImage /
EmptyDirectory of ecleankernel.file (not under the given sources).  A
KernelImage carries the internal version extracted from the binary image;
EmptyDirectory marks the boot-entry directory itself as a deletable unit. -/
inductive FileRecord where
  | generic (path : Path) (ftype : KernelFileType)
  | kernelImage (path : Path) (internal_version : String)
  | emptyDirectory (path : Path)
  deriving DecidableEq

/-- Path carried by a file record. -/
def FileRecord.path : FileRecord → Path
  | .generic p _ => p
  | .kernelImage p _ => p
  | .emptyDirectory p => p

/-- Whether a record is a KernelImage. -/
def FileRecord.isKI : FileRecord → Bool
  | .kernelImage _ _ => true
  | _ => false

/-- Modelled from the spec: whether a record is classified as a KERNEL-typed
file (a KernelImage always is; a GenericFile is when its tag is KERNEL; an
EmptyDirectory is a directory record, not a KERNEL-classified file). -/
def FileRecord.isKernelClassified : FileRecord → Bool
  | .generic _ t => decide (t = KernelFileType.kernel)
  | .kernelImage _ _ => true
  | .emptyDirectory _ => false

/-- Modelled from the spec: the Kernel grouping record of ecleankernel.kernel
(not under the given sources): a display version plus the ordered collection
all_files of records it owns. -/
structure Kernel where
  version : String
  all_files : List FileRecord
  deriving DecidableEq

/-- Internal version of the first KernelImage in a record list, if any. -/
def firstKI : List FileRecord → Option String
  | [] => none
  | f :: fs =>
    match f with
    | .kernelImage _ v => some v
    | _ => firstKI fs

/-- Modelled from the spec: Kernel.real_kv, the optional real (internal)
version discovered from the Kernel's KernelImage, if any. -/
def Kernel.real_kv (k : Kernel) : Option String :=
  firstKI k.all_files

/-- The fixed name table of BlSpecLayout: a file literally named "initrd" is
INITRAMFS, "linux" is KERNEL; unmapped names default to MISC. -/
def name_map (fn : String) : KernelFileType :=
  if fn = "initrd" then KernelFileType.initramfs
  else if fn = "linux" then KernelFileType.kernel
  else KernelFileType.misc

/-- Result of the module-directory scan: a mapping (ordered, as a Python dict)
from module-tree version key to the file records collected under it. -/
abbrev ModuleDict := List (String × List FileRecord)

/-- Lookup in a module mapping with default empty list (module_dict.get(v, [])). -/
def dictGet (md : ModuleDict) (v : String) : List FileRecord :=
  match md with
  | [] => []
  | p :: rest => if p.1 = v then p.2 else dictGet rest v

/-- A directory entry inside a boot-entry subdirectory, together with the
outcome of attempting to parse it as a kernel image (the external parser
contract): some v means KernelImage(path) succeeds with internal_version v,
none means it raises UnrecognizedKernelError. -/
structure BootFile where
  name : String
  parse : Option String
  deriving DecidableEq

/-- An immediate entry of the resolved boot directory, as seen by os.listdir
plus the is_symlink/is_dir probes, with its contained files. -/
structure BootEntry where
  name : String
  isSymlink : Bool
  isDir : Bool
  files : List BootFile
  deriving DecidableEq

/-- Whether a directory-entry name is hidden (fn.startswith(".")). -/
def isHidden (s : String) : Bool :=
  match s.data with
  | [] => false
  | c :: _ => c == '.'

/-- One iteration of the inner file loop of find_kernels (lines 85-103 of
blspec.py): skip hidden names, classify by name_map, attempt KernelImage
parsing for KERNEL-typed names, on success extend with the associated module
files and turn the record into a KernelImage, then append the record unless
its type is excluded. -/
def fileStep (md : ModuleDict) (excl : List KernelFileType) (dirPath : Path)
    (k : Kernel) (f : BootFile) : Kernel :=
  if isHidden f.name then k
  else
    let path := dirPath ++ [f.name]
    let ftype := name_map f.name
    let step :=
      if ftype = KernelFileType.kernel then
        match f.parse with
        | some v =>
          ({ k with all_files := k.all_files ++ dictGet md v },
           FileRecord.kernelImage path v)
        | none => (k, FileRecord.generic path ftype)
      else (k, FileRecord.generic path ftype)
    if ftype ∈ excl then step.1
    else { step.1 with all_files := step.1.all_files ++ [step.2] }

/-- Processing of one boot-entry subdirectory (lines 83-103 of blspec.py):
fold the file loop over the directory listing starting from Kernel(ver),
then always append an EmptyDirectory record for the subdirectory itself. -/
def processEntry (md : ModuleDict) (excl : List KernelFileType)
    (bd : Path) (e : BootEntry) : Kernel :=
  let dirPath := bd ++ [e.name]
  let k := e.files.foldl (fileStep md excl dirPath) ⟨e.name, []⟩
  { k with all_files := k.all_files ++ [FileRecord.emptyDirectory dirPath] }

/-- The kernels mapping built by find_kernels, an insertion-ordered dict. -/
abbrev KDict := List (String × Kernel)

/-- Whether a key is present in the kernels mapping. -/
def keyMem (d : KDict) (key : String) : Bool :=
  d.any fun q => decide (q.1 = key)

/-- Python dict assignment kernels[ver] = k: replace in place when the key is
present, otherwise append at the end. -/
def dictInsert (d : KDict) (key : String) (v : Kernel) : KDict :=
  if keyMem d key then d.map fun q => if q.1 = key then (key, v) else q
  else d ++ [(key, v)]

/-- Whether an entry of the boot directory is processed by find_kernels:
not hidden, not a symlink, and a directory. -/
def goodEntry (e : BootEntry) : Bool :=
  !isHidden e.name && !e.isSymlink && e.isDir

/-- One iteration of the boot-directory loop of find_kernels (lines 76-104):
skip hidden names and symlinks/non-directories, otherwise process the entry
and store it under its directory name. -/
def entryStep (md : ModuleDict) (excl : List KernelFileType) (bd : Path)
    (d : KDict) (e : BootEntry) : KDict :=
  if isHidden e.name then d
  else if e.isSymlink || !e.isDir then d
  else dictInsert d e.name (processEntry md excl bd e)

/-- The boot-directory collection pass of find_kernels. -/
def bootScan (md : ModuleDict) (excl : List KernelFileType) (bd : Path)
    (entries : List BootEntry) : KDict :=
  entries.foldl (entryStep md excl bd) []

/-- Whether some stored Kernel has the given real (internal) version, as
tested by the second pass: any(mkv == k.real_kv for k in kernels.values()). -/
def hasRK (d : KDict) (v : String) : Bool :=
  d.any fun q => decide (q.2.real_kv = some v)

/-- kernels.setdefault(mkv, Kernel(mkv)).all_files.extend(fobjs): extend the
stored Kernel in place when the key is present, otherwise append a fresh
Kernel holding exactly the extension. -/
def setdefaultExtend (d : KDict) (mkv : String) (fobjs : List FileRecord) : KDict :=
  if keyMem d mkv then
    d.map fun q => if q.1 = mkv then (q.1, Kernel.mk q.2.version (q.2.all_files ++ fobjs)) else q
  else d ++ [(mkv, Kernel.mk mkv fobjs)]

/-- One iteration of the orphan-reconciliation pass of find_kernels (lines
106-109): skip a module key carried by some Kernel's real version, otherwise
merge its files into the Kernel stored under that key (creating it if absent). -/
def orphanStep (d : KDict) (p : String × List FileRecord) : KDict :=
  if hasRK d p.1 then d else setdefaultExtend d p.1 p.2

/-- The orphan-reconciliation pass of find_kernels. -/
def mergeOrphans (d : KDict) (md : ModuleDict) : KDict :=
  md.foldl orphanStep d

/-- The list of Kernels returned by find_kernels once the precondition on the
exclusion set holds: boot-directory pass followed by orphan reconciliation,
returned in mapping order (list(kernels.values())). -/
def find_kernels_core (md : ModuleDict) (excl : List KernelFileType) (bd : Path)
    (entries : List BootEntry) : List Kernel :=
  (mergeOrphans (bootScan md excl bd entries) md).map Prod.snd

/-- Scanning side effects of find_kernels, in program order: the call to
get_module_dict, then the enumeration of the boot directory. -/
inductive ScanEvent where
  | moduleScan
  | bootDirScan
  deriving DecidableEq

/-- find_kernels with its execution trace: the assertion on line 66 runs
first; when it fires (KERNEL is in the exclusion set) the call aborts with
no result and before any scanning; otherwise both scans run and the grouped
kernel list is produced. -/
def find_kernels_traced (md : ModuleDict) (bd : Path) (entries : List BootEntry)
    (excl : List KernelFileType) : Option (List Kernel) × List ScanEvent :=
  if KernelFileType.kernel ∈ excl then (none, [])
  else (some (find_kernels_core md excl bd entries),
        [ScanEvent.moduleScan, ScanEvent.bootDirScan])

/-- BlSpecLayout.find_kernels: none models the AssertionError abort. -/
def find_kernels (md : ModuleDict) (bd : Path) (entries : List BootEntry)
    (excl : List KernelFileType) : Option (List Kernel) :=
  (find_kernels_traced md bd entries excl).1

/-- Whitespace test for the model of str.strip(). -/
def isWS (c : Char) : Bool :=
  c == ' ' || c == '\n' || c == '\t' || c == '\r'

/-- Drop leading whitespace characters. -/
def dropWS : List Char → List Char
  | [] => []
  | c :: cs => if isWS c then dropWS cs else c :: cs

/-- Model of Python str.strip(): remove leading and trailing whitespace. -/
def strip (s : String) : String :=
  ⟨(dropWS (dropWS s.data).reverse).reverse⟩

/-- The identity-token loop of BlSpecLayout.__init__ (lines 45-53): try
etc/kernel/entry-token then etc/machine-id; the first file that opens
successfully has its content stripped and taken as kernel_id, with no
further condition; when neither exists, LayoutNotFound (none) results.
The two arguments are the contents of the two candidate files (none models
FileNotFoundError). -/
def resolve_kernel_id (entryToken machineId : Option String) : Option String :=
  match entryToken with
  | some c => some (strip c)
  | none =>
    match machineId with
    | some c => some (strip c)
    | none => none

/-- The identity-token rule as the spec words it: use the first candidate
that exists and is non-empty after trimming whitespace, passing over a
candidate that is empty after trimming; stated for comparison with
resolve_kernel_id. -/
def resolve_kernel_id_spec (entryToken machineId : Option String) : Option String :=
  match entryToken with
  | some c =>
    if strip c = "" then
      match machineId with
      | some c2 => if strip c2 = "" then none else some (strip c2)
      | none => none
    else some (strip c)
  | none =>
    match machineId with
    | some c2 => if strip c2 = "" then none else some (strip c2)
    | none => none

/-- The fixed candidate parent directories probed for the boot directory
(BlSpecLayout.potential_dirs). -/
def potential_dirs : List Path :=
  [["boot", "EFI"], ["boot", "efi"], ["boot"], ["efi"]]

/-- The boot-directory probe of BlSpecLayout.__init__ (lines 55-60): the
first candidate root/d/kernel_id that is an existing directory; none models
the LayoutNotFound raise when no candidate is a directory. -/
def resolve_bootdir (isDir : Path → Bool) (root : Path) (kernel_id : String) :
    Option Path :=
  (potential_dirs.map fun d => root ++ d ++ [kernel_id]).find? isDir

/-- BlSpecLayout.__init__ as a whole: resolve the identity token from the
two candidate files under root, then probe for the boot directory; the
result is the bootdir held by the layout object, none models LayoutNotFound. -/
def blspec_init (readFile : Path → Option String) (isDir : Path → Bool)
    (root : Path) : Option Path :=
  match resolve_kernel_id (readFile (root ++ ["etc", "kernel", "entry-token"]))
      (readFile (root ++ ["etc", "machine-id"])) with
  | none => none
  | some kid => resolve_bootdir isDir root kid

/-- Records contributed to a Kernel's all_files by one file of its boot-entry
directory: nothing for hidden names or excluded types; for a KERNEL-typed
name that parses, the associated module files followed by the KernelImage;
otherwise a single GenericFile. -/
def fileContrib (md : ModuleDict) (excl : List KernelFileType) (dirPath : Path)
    (f : BootFile) : List FileRecord :=
  if isHidden f.name then []
  else
    let path := dirPath ++ [f.name]
    let ftype := name_map f.name
    if ftype = KernelFileType.kernel then
      match f.parse with
      | some v =>
        dictGet md v ++ (if ftype ∈ excl then [] else [FileRecord.kernelImage path v])
      | none => if ftype ∈ excl then [] else [FileRecord.generic path ftype]
    else if ftype ∈ excl then [] else [FileRecord.generic path ftype]

/-- Concatenated contributions of a boot-entry directory listing. -/
def contribsOf (md : ModuleDict) (excl : List KernelFileType) (dirPath : Path) :
    List BootFile → List FileRecord
  | [] => []
  | f :: fs => fileContrib md excl dirPath f ++ contribsOf md excl dirPath fs

/-- Module files merged into the Kernel stored under the given key by the
orphan-reconciliation pass, when the boot pass produced the mapping d. -/
def orphanExtra (d : KDict) (md : ModuleDict) (key : String) : List FileRecord :=
  dictGet (md.filter fun p => !hasRK d p.1) key

/-- Fresh Kernels appended by the orphan-reconciliation pass: module keys
matching no stored real version and no stored mapping key. -/
def newOrphans (d : KDict) (md : ModuleDict) : KDict :=
  (md.filter fun p => !hasRK d p.1 && !keyMem d p.1).map fun p => (p.1, Kernel.mk p.1 p.2)

/-- Whether the path p starts with the components pre. -/
def pathStarts : Path → Path → Bool
  | [], _ => true
  | _ :: _, [] => false
  | a :: as, b :: bs => a == b && pathStarts as bs

/-- Internal versions successfully parsed from the KERNEL-typed files of a
boot-entry directory listing. -/
def parsedVersions (fs : List BootFile) : List String :=
  fs.filterMap fun f =>
    if !isHidden f.name && decide (name_map f.name = KernelFileType.kernel) then f.parse
    else none

/-- Well-formedness of one collected module file as get_module_dict produces
them per the spec: a GenericFile tagged MODULES or MISC, never KERNEL-typed
and never a KernelImage or EmptyDirectory. -/
def moduleFileOk (f : FileRecord) : Bool :=
  match f with
  | .generic _ t => decide (t ≠ KernelFileType.kernel)
  | _ => false

/-- Modelled from the spec: every file collected by get_module_dict is a
plain classified GenericFile of a non-KERNEL type. -/
abbrev ModuleFilesOk (md : ModuleDict) : Prop :=
  ∀ p ∈ md, ∀ f ∈ p.2, moduleFileOk f = true

/-- A boot entry with its hidden files removed. -/
def dropHiddenFiles (e : BootEntry) : BootEntry :=
  ⟨e.name, e.isSymlink, e.isDir, e.files.filter fun f => !isHidden f.name⟩

/- ------------------------------------------------------------------ -/
/- Basic lemmas about the per-file and per-entry processing.           -/
/- ------------------------------------------------------------------ -/

theorem fileStep_eq (md : ModuleDict) (excl : List KernelFileType) (dirPath : Path)
    (k : Kernel) (f : BootFile) :
    fileStep md excl dirPath k f =
      Kernel.mk k.version (k.all_files ++ fileContrib md excl dirPath f) := by
  unfold fileStep fileContrib
  by_cases h1 : isHidden f.name
  · simp [h1]
  · by_cases h2 : name_map f.name = KernelFileType.kernel
    · cases hp : f.parse with
      | some v =>
        by_cases h3 : KernelFileType.kernel ∈ excl <;>
          simp [h1, h2, hp, h3, List.append_assoc]
      | none =>
        by_cases h3 : KernelFileType.kernel ∈ excl <;> simp [h1, h2, hp, h3]
    · by_cases h3 : name_map f.name ∈ excl <;> simp [h1, h2, h3]

theorem foldl_fileStep (md : ModuleDict) (excl : List KernelFileType) (dirPath : Path)
    (fs : List BootFile) (k : Kernel) :
    fs.foldl (fileStep md excl dirPath) k =
      Kernel.mk k.version (k.all_files ++ contribsOf md excl dirPath fs) := by
  induction fs generalizing k with
  | nil => simp [contribsOf]
  | cons f fs ih => simp [contribsOf, fileStep_eq, ih, List.append_assoc]

theorem processEntry_eq (md : ModuleDict) (excl : List KernelFileType) (bd : Path)
    (e : BootEntry) :
    processEntry md excl bd e =
      Kernel.mk e.name
        (contribsOf md excl (bd ++ [e.name]) e.files ++
          [FileRecord.emptyDirectory (bd ++ [e.name])]) := by
  unfold processEntry
  simp only [foldl_fileStep]
  simp [List.append_assoc]

theorem processEntry_version (md : ModuleDict) (excl : List KernelFileType) (bd : Path)
    (e : BootEntry) : (processEntry md excl bd e).version = e.name := by
  rw [processEntry_eq]

theorem contribsOf_append (md : ModuleDict) (excl : List KernelFileType) (dirPath : Path)
    (a b : List BootFile) :
    contribsOf md excl dirPath (a ++ b) =
      contribsOf md excl dirPath a ++ contribsOf md excl dirPath b := by
  induction a with
  | nil => simp [contribsOf]
  | cons f fs ih => simp [contribsOf, ih]

theorem mem_contribsOf {md : ModuleDict} {excl : List KernelFileType} {dirPath : Path}
    {fs : List BootFile} {g : FileRecord} :
    g ∈ contribsOf md excl dirPath fs ↔ ∃ f ∈ fs, g ∈ fileContrib md excl dirPath f := by
  induction fs with
  | nil => simp [contribsOf]
  | cons f fs ih => simp [contribsOf, ih, List.mem_append, or_and_right, exists_or]

theorem fileContrib_shape {md : ModuleDict} {excl : List KernelFileType} {dirPath : Path}
    {f : BootFile} {g : FileRecord} (hg : g ∈ fileContrib md excl dirPath f) :
    (∃ t, g = FileRecord.generic (dirPath ++ [f.name]) t) ∨
    (∃ v, isHidden f.name = false ∧ name_map f.name = KernelFileType.kernel ∧
      f.parse = some v ∧
      (g = FileRecord.kernelImage (dirPath ++ [f.name]) v ∨ g ∈ dictGet md v)) := by
  unfold fileContrib at hg
  by_cases h1 : isHidden f.name
  · simp [h1] at hg
  · by_cases h2 : name_map f.name = KernelFileType.kernel
    · cases hp : f.parse with
      | some v =>
        rw [hp] at hg
        by_cases h3 : KernelFileType.kernel ∈ excl <;>
          simp [h1, h2, h3] at hg
        · right
          exact ⟨v, by simp [h1], h2, rfl, Or.inr hg⟩
        · right
          rcases hg with hg | hg
          · exact ⟨v, by simp [h1], h2, rfl, Or.inr hg⟩
          · exact ⟨v, by simp [h1], h2, rfl, Or.inl hg⟩
      | none =>
        rw [hp] at hg
        by_cases h3 : KernelFileType.kernel ∈ excl <;> simp [h1, h2, h3] at hg
        · rw [h2]
          exact Or.inl ⟨KernelFileType.kernel, hg⟩
    · by_cases h3 : name_map f.name ∈ excl <;> simp [h1, h2, h3] at hg
      · exact Or.inl ⟨name_map f.name, hg⟩

/- ------------------------------------------------------------------ -/
/- Lemmas about the mapping helpers.                                   -/
/- ------------------------------------------------------------------ -/

theorem dictGet_eq_nil {md : ModuleDict} {v : String} (h : ∀ p ∈ md, p.1 ≠ v) :
    dictGet md v = [] := by
  induction md with
  | nil => rfl
  | cons p rest ih =>
    rw [dictGet, if_neg (h p (List.mem_cons_self p rest))]
    exact ih fun q hq => h q (List.mem_cons_of_mem p hq)

theorem dictGet_of_mem_nodup {md : ModuleDict} {v : String} {fs : List FileRecord}
    (hmem : (v, fs) ∈ md) (hnd : (md.map Prod.fst).Nodup) : dictGet md v = fs := by
  induction md with
  | nil => simp at hmem
  | cons p rest ih =>
    rcases List.mem_cons.mp hmem with h | h
    · rw [← h, dictGet, if_pos rfl]
    · have hne : p.1 ≠ v := by
        intro he
        have : v ∈ rest.map Prod.fst := List.mem_map_of_mem Prod.fst h
        rw [List.map_cons, List.nodup_cons] at hnd
        exact hnd.1 (he ▸ this)
      rw [dictGet, if_neg hne]
      exact ih h ((List.map_cons Prod.fst p rest ▸ hnd).of_cons)

theorem mem_dictGet {md : ModuleDict} {v : String} {g : FileRecord}
    (h : g ∈ dictGet md v) : ∃ fs, (v, fs) ∈ md ∧ g ∈ fs := by
  induction md with
  | nil => simp [dictGet] at h
  | cons p rest ih =>
    rw [dictGet] at h
    by_cases he : p.1 = v
    · rw [if_pos he] at h
      exact ⟨p.2, by rw [← he]; exact List.mem_cons_self p rest, h⟩
    · rw [if_neg he] at h
      rcases ih h with ⟨fs, h1, h2⟩
      exact ⟨fs, List.mem_cons_of_mem p h1, h2⟩

theorem keyMem_iff {d : KDict} {key : String} :
    keyMem d key = true ↔ ∃ q ∈ d, q.1 = key := by
  simp [keyMem, List.any_eq_true]

theorem keyMem_eq_false {d : KDict} {key : String} :
    keyMem d key = false ↔ ∀ q ∈ d, q.1 ≠ key := by
  simp [keyMem, List.any_eq_false]

theorem keyMem_append {d1 d2 : KDict} {key : String} :
    keyMem (d1 ++ d2) key = (keyMem d1 key || keyMem d2 key) := by
  simp [keyMem, List.any_append]

theorem hasRK_iff {d : KDict} {v : String} :
    hasRK d v = true ↔ ∃ q ∈ d, q.2.real_kv = some v := by
  simp [hasRK, List.any_eq_true]

theorem hasRK_eq_false {d : KDict} {v : String} :
    hasRK d v = false ↔ ∀ q ∈ d, q.2.real_kv ≠ some v := by
  simp [hasRK, List.any_eq_false]

theorem keyMem_cons {q : String × Kernel} {d : KDict} {key : String} :
    keyMem (q :: d) key = (decide (q.1 = key) || keyMem d key) := by
  simp [keyMem]

theorem hasRK_cons {q : String × Kernel} {d : KDict} {v : String} :
    hasRK (q :: d) v = (decide (q.2.real_kv = some v) || hasRK d v) := by
  simp [hasRK]

theorem hasRK_append {d1 d2 : KDict} {v : String} :
    hasRK (d1 ++ d2) v = (hasRK d1 v || hasRK d2 v) := by
  simp [hasRK, List.any_append]

/- ------------------------------------------------------------------ -/
/- Lemmas about the boot-directory pass.                               -/
/- ------------------------------------------------------------------ -/

theorem entryStep_eq (md : ModuleDict) (excl : List KernelFileType) (bd : Path)
    (d : KDict) (e : BootEntry) :
    entryStep md excl bd d e =
      if goodEntry e then dictInsert d e.name (processEntry md excl bd e) else d := by
  unfold entryStep goodEntry
  by_cases h1 : isHidden e.name <;> by_cases h2 : e.isSymlink <;>
    by_cases h3 : e.isDir <;> simp [h1, h2, h3]

theorem bootScan_aux (md : ModuleDict) (excl : List KernelFileType) (bd : Path)
    (entries : List BootEntry) (d : KDict)
    (h1 : ((entries.filter goodEntry).map BootEntry.name).Nodup)
    (h2 : ∀ e ∈ entries.filter goodEntry, keyMem d e.name = false) :
    entries.foldl (entryStep md excl bd) d =
      d ++ (entries.filter goodEntry).map fun e => (e.name, processEntry md excl bd e) := by
  induction entries generalizing d with
  | nil => simp
  | cons e es ih =>
    by_cases hg : goodEntry e
    · rw [List.foldl_cons, entryStep_eq, if_pos hg]
      have hmem : e ∈ (e :: es).filter goodEntry := by
        rw [List.filter_cons_of_pos hg]
        exact List.mem_cons_self e _
      have hkm : keyMem d e.name = false := h2 e hmem
      rw [dictInsert, if_neg (by simp [hkm])]
      rw [List.filter_cons_of_pos hg, List.map_cons, List.nodup_cons] at h1
      have h2' : ∀ x ∈ es.filter goodEntry,
          keyMem (d ++ [(e.name, processEntry md excl bd e)]) x.name = false := by
        intro x hx
        rw [keyMem_append, Bool.or_eq_false_iff]
        refine ⟨h2 x ?_, ?_⟩
        · rw [List.filter_cons_of_pos hg]
          exact List.mem_cons_of_mem e hx
        · rw [keyMem_eq_false]
          intro q hq
          rw [List.mem_singleton] at hq
          rw [hq]
          intro hqe
          apply h1.1
          rw [show e.name = x.name from hqe]
          exact List.mem_map_of_mem BootEntry.name hx
      rw [ih _ h1.2 h2']
      rw [List.filter_cons_of_pos hg, List.map_cons, List.append_assoc,
        List.singleton_append]
    · rw [List.foldl_cons, entryStep_eq, if_neg hg]
      rw [List.filter_cons_of_neg hg] at h1 h2 ⊢
      exact ih d h1 h2

theorem bootScan_eq (md : ModuleDict) (excl : List KernelFileType) (bd : Path)
    (entries : List BootEntry)
    (h1 : ((entries.filter goodEntry).map BootEntry.name).Nodup) :
    bootScan md excl bd entries =
      (entries.filter goodEntry).map fun e => (e.name, processEntry md excl bd e) := by
  have h := bootScan_aux md excl bd entries [] h1 (fun e _ => rfl)
  rw [bootScan, h, List.nil_append]

/- ------------------------------------------------------------------ -/
/- Lemmas about firstKI and real_kv.                                   -/
/- ------------------------------------------------------------------ -/

theorem real_kv_mk (ver : String) (fs : List FileRecord) :
    Kernel.real_kv ⟨ver, fs⟩ = firstKI fs := rfl

theorem firstKI_eq_none_of_noKI {fs : List FileRecord}
    (h : ∀ f ∈ fs, f.isKI = false) : firstKI fs = none := by
  induction fs with
  | nil => rfl
  | cons f fs ih =>
    have hf := h f (List.mem_cons_self f fs)
    cases f with
    | kernelImage p v => simp [FileRecord.isKI] at hf
    | generic p t => exact ih fun g hg => h g (List.mem_cons_of_mem _ hg)
    | emptyDirectory p => exact ih fun g hg => h g (List.mem_cons_of_mem _ hg)

theorem firstKI_append (a b : List FileRecord) :
    firstKI (a ++ b) =
      match firstKI a with
      | some v => some v
      | none => firstKI b := by
  induction a with
  | nil => rfl
  | cons f fs ih =>
    cases f with
    | kernelImage p v => rfl
    | generic p t => exact ih
    | emptyDirectory p => exact ih

theorem firstKI_append_noKI_right {a b : List FileRecord}
    (hb : ∀ f ∈ b, f.isKI = false) : firstKI (a ++ b) = firstKI a := by
  rw [firstKI_append]
  cases ha : firstKI a with
  | some v => rfl
  | none => exact firstKI_eq_none_of_noKI hb

theorem firstKI_append_noKI_left {a b : List FileRecord}
    (ha : ∀ f ∈ a, f.isKI = false) : firstKI (a ++ b) = firstKI b := by
  rw [firstKI_append, firstKI_eq_none_of_noKI ha]

/- ------------------------------------------------------------------ -/
/- Lemmas about setdefaultExtend and the orphan pass.                  -/
/- ------------------------------------------------------------------ -/

theorem setdefaultExtend_of_mem {d : KDict} {mkv : String} {fobjs : List FileRecord}
    (h : keyMem d mkv = true) :
    setdefaultExtend d mkv fobjs =
      d.map fun q =>
        if q.1 = mkv then (q.1, Kernel.mk q.2.version (q.2.all_files ++ fobjs)) else q := by
  unfold setdefaultExtend
  rw [if_pos h]

theorem setdefaultExtend_of_not_mem {d : KDict} {mkv : String} {fobjs : List FileRecord}
    (h : keyMem d mkv = false) :
    setdefaultExtend d mkv fobjs = d ++ [(mkv, Kernel.mk mkv fobjs)] := by
  unfold setdefaultExtend
  rw [if_neg (by simp [h])]

theorem keyMem_map {d : KDict} {g : String × Kernel → String × Kernel}
    (h : ∀ q, (g q).1 = q.1) (key : String) :
    keyMem (d.map g) key = keyMem d key := by
  induction d with
  | nil => rfl
  | cons q rest ih => rw [List.map_cons, keyMem_cons, keyMem_cons, h q, ih]

theorem hasRK_map_extend {d : KDict} {mkv : String} {fobjs : List FileRecord}
    (hno : ∀ f ∈ fobjs, f.isKI = false) (v : String) :
    hasRK (d.map fun q =>
        if q.1 = mkv then (q.1, Kernel.mk q.2.version (q.2.all_files ++ fobjs)) else q) v
      = hasRK d v := by
  induction d with
  | nil => rfl
  | cons q rest ih =>
    rw [List.map_cons, hasRK_cons, hasRK_cons, ih]
    by_cases hq : q.1 = mkv
    · rw [if_pos hq]
      have : Kernel.real_kv ⟨q.2.version, q.2.all_files ++ fobjs⟩ = q.2.real_kv := by
        rw [real_kv_mk, firstKI_append_noKI_right hno]
        rfl
      rw [this]
    · rw [if_neg hq]

theorem hasRK_setdefaultExtend {d : KDict} {mkv : String} {fobjs : List FileRecord}
    (hno : ∀ f ∈ fobjs, f.isKI = false) (v : String) :
    hasRK (setdefaultExtend d mkv fobjs) v = hasRK d v := by
  by_cases h : keyMem d mkv
  · rw [setdefaultExtend_of_mem h, hasRK_map_extend hno]
  · rw [setdefaultExtend_of_not_mem (by rwa [Bool.not_eq_true] at h)]
    rw [hasRK_append]
    have : hasRK [(mkv, Kernel.mk mkv fobjs)] v = false := by
      rw [hasRK]
      simp [real_kv_mk, firstKI_eq_none_of_noKI hno]
    rw [this, Bool.or_false]

theorem orphanExtra_nil (d : KDict) (key : String) : orphanExtra d [] key = [] := rfl

theorem orphanExtra_cons_pos {d : KDict} {p : String × List FileRecord}
    {md : ModuleDict} (h : hasRK d p.1 = false) (key : String) :
    orphanExtra d (p :: md) key = if p.1 = key then p.2 else orphanExtra d md key := by
  unfold orphanExtra
  rw [List.filter_cons_of_pos (by simp [h]), dictGet]

theorem orphanExtra_cons_neg {d : KDict} {p : String × List FileRecord}
    {md : ModuleDict} (h : hasRK d p.1 = true) (key : String) :
    orphanExtra d (p :: md) key = orphanExtra d md key := by
  unfold orphanExtra
  rw [List.filter_cons_of_neg (by simp [h])]

theorem orphanExtra_congr {d d2 : KDict} {md : ModuleDict}
    (h : ∀ p ∈ md, hasRK d p.1 = hasRK d2 p.1) (key : String) :
    orphanExtra d md key = orphanExtra d2 md key := by
  unfold orphanExtra
  rw [List.filter_congr fun p hp => by rw [h p hp]]

theorem orphanExtra_eq_nil_of_not_key {d : KDict} {md : ModuleDict} {key : String}
    (h : ∀ p ∈ md, p.1 ≠ key) : orphanExtra d md key = [] :=
  dictGet_eq_nil fun p hp => h p (List.mem_of_mem_filter hp)

theorem newOrphans_nil (d : KDict) : newOrphans d [] = [] := rfl

theorem newOrphans_cons_of_hasRK {d : KDict} {p : String × List FileRecord}
    {md : ModuleDict} (h : hasRK d p.1 = true) :
    newOrphans d (p :: md) = newOrphans d md := by
  unfold newOrphans
  rw [List.filter_cons_of_neg (by simp [h])]

theorem newOrphans_cons_of_keyMem {d : KDict} {p : String × List FileRecord}
    {md : ModuleDict} (h : keyMem d p.1 = true) :
    newOrphans d (p :: md) = newOrphans d md := by
  unfold newOrphans
  rw [List.filter_cons_of_neg (by simp [h])]

theorem newOrphans_cons_of_new {d : KDict} {p : String × List FileRecord}
    {md : ModuleDict} (h1 : hasRK d p.1 = false) (h2 : keyMem d p.1 = false) :
    newOrphans d (p :: md) = (p.1, Kernel.mk p.1 p.2) :: newOrphans d md := by
  unfold newOrphans
  rw [List.filter_cons_of_pos (by simp [h1, h2]), List.map_cons]

theorem newOrphans_congr {d d2 : KDict} {md : ModuleDict}
    (h1 : ∀ p ∈ md, hasRK d p.1 = hasRK d2 p.1)
    (h2 : ∀ p ∈ md, keyMem d p.1 = keyMem d2 p.1) :
    newOrphans d md = newOrphans d2 md := by
  unfold newOrphans
  rw [List.filter_congr fun p hp => by rw [h1 p hp, h2 p hp]]

theorem mergeOrphans_cons (d : KDict) (p : String × List FileRecord)
    (rest : ModuleDict) :
    mergeOrphans d (p :: rest) = mergeOrphans (orphanStep d p) rest := rfl

theorem orphanStep_closed {d : KDict} {p : String × List FileRecord}
    {rest : ModuleDict}
    (hc : hasRK d p.1 = false) (hk1 : ∀ f ∈ p.2, f.isKI = false)
    (hrest : ∀ q ∈ rest, q.1 ≠ p.1) :
    ((setdefaultExtend d p.1 p.2).map fun q =>
        (q.1, Kernel.mk q.2.version
          (q.2.all_files ++ orphanExtra (setdefaultExtend d p.1 p.2) rest q.1)))
      ++ newOrphans (setdefaultExtend d p.1 p.2) rest
    = (d.map fun q =>
        (q.1, Kernel.mk q.2.version (q.2.all_files ++ orphanExtra d (p :: rest) q.1)))
      ++ newOrphans d (p :: rest) := by
  have hOE : ∀ key, orphanExtra (setdefaultExtend d p.1 p.2) rest key
      = orphanExtra d rest key :=
    fun key => orphanExtra_congr (fun q _ => by rw [hasRK_setdefaultExtend hk1]) key
  have hOEp : orphanExtra d rest p.1 = [] := orphanExtra_eq_nil_of_not_key hrest
  have hNO : newOrphans (setdefaultExtend d p.1 p.2) rest = newOrphans d rest := by
    apply newOrphans_congr
    · intro q _
      rw [hasRK_setdefaultExtend hk1]
    · intro q hq
      by_cases hm : keyMem d p.1
      · rw [setdefaultExtend_of_mem hm, keyMem_map]
        intro x
        by_cases hx : x.1 = p.1 <;> simp [hx]
      · have hm' : keyMem d p.1 = false := by rwa [Bool.not_eq_true] at hm
        rw [setdefaultExtend_of_not_mem hm', keyMem_append]
        have hsingle : keyMem [(p.1, Kernel.mk p.1 p.2)] q.1 = false := by
          rw [keyMem_eq_false]
          intro x hx
          rw [List.mem_singleton] at hx
          rw [hx]
          exact fun h => hrest q hq h.symm
        rw [hsingle, Bool.or_false]
  simp only [hOE, hNO]
  by_cases hm : keyMem d p.1
  · rw [setdefaultExtend_of_mem hm, List.map_map]
    congr 1
    · apply List.map_congr_left
      intro q _
      by_cases hq1 : q.1 = p.1
      · simp [Function.comp, hq1, hOEp, orphanExtra_cons_pos hc]
      · have hq2 : ¬p.1 = q.1 := fun h => hq1 h.symm
        simp [Function.comp, hq1, hq2, orphanExtra_cons_pos hc]
    · rw [newOrphans_cons_of_keyMem hm]
  · have hm' : keyMem d p.1 = false := by rwa [Bool.not_eq_true] at hm
    rw [setdefaultExtend_of_not_mem hm', List.map_append, List.append_assoc,
      newOrphans_cons_of_new hc hm']
    have hdq : ∀ q ∈ d, q.1 ≠ p.1 := keyMem_eq_false.mp hm'
    congr 1
    · apply List.map_congr_left
      intro q hq
      rw [orphanExtra_cons_pos hc, if_neg fun h => (hdq q hq) h.symm]
    · rw [List.map_cons, List.map_nil, List.singleton_append]
      congr 1
      simp [hOEp]

theorem mergeOrphans_eq (md : ModuleDict) (d : KDict)
    (hmd : (md.map Prod.fst).Nodup)
    (hki : ∀ p ∈ md, ∀ f ∈ p.2, f.isKI = false) :
    mergeOrphans d md =
      (d.map fun q => (q.1, Kernel.mk q.2.version (q.2.all_files ++ orphanExtra d md q.1)))
        ++ newOrphans d md := by
  induction md generalizing d with
  | nil =>
    rw [mergeOrphans, List.foldl_nil, newOrphans_nil, List.append_nil]
    have : ∀ q : String × Kernel,
        (q.1, Kernel.mk q.2.version (q.2.all_files ++ orphanExtra d [] q.1)) = q := by
      intro q
      rw [orphanExtra_nil, List.append_nil]
    rw [List.map_congr_left fun q _ => this q]
    exact (List.map_id d).symm
  | cons p rest ih =>
    have hk1 : ∀ f ∈ p.2, f.isKI = false := hki p (List.mem_cons_self p rest)
    have hkiRest : ∀ q ∈ rest, ∀ f ∈ q.2, f.isKI = false :=
      fun q hq => hki q (List.mem_cons_of_mem p hq)
    rw [List.map_cons, List.nodup_cons] at hmd
    have hpnotin : ∀ q ∈ rest, q.1 ≠ p.1 := by
      intro q hq he
      exact hmd.1 (he ▸ List.mem_map_of_mem Prod.fst hq)
    rw [mergeOrphans_cons]
    by_cases hc : hasRK d p.1
    · rw [orphanStep, if_pos hc, ih d hmd.2 hkiRest]
      simp only [orphanExtra_cons_neg hc, newOrphans_cons_of_hasRK hc]
    · have hc' : hasRK d p.1 = false := by rwa [Bool.not_eq_true] at hc
      rw [orphanStep, if_neg hc, ih (setdefaultExtend d p.1 p.2) hmd.2 hkiRest]
      exact orphanStep_closed hc' hk1 hpnotin

/-- Master characterization of find_kernels under the assertion precondition:
each processed boot entry yields its processed Kernel possibly extended by the
orphan merge for its display name, followed by the fresh orphan Kernels. -/
theorem find_kernels_eq (md : ModuleDict) (excl : List KernelFileType) (bd : Path)
    (entries : List BootEntry)
    (hx : KernelFileType.kernel ∉ excl)
    (hn : ((entries.filter goodEntry).map BootEntry.name).Nodup)
    (hmd : (md.map Prod.fst).Nodup)
    (hki : ∀ p ∈ md, ∀ f ∈ p.2, f.isKI = false) :
    find_kernels md bd entries excl = some (
      ((entries.filter goodEntry).map fun e =>
        Kernel.mk e.name ((processEntry md excl bd e).all_files ++
          orphanExtra (bootScan md excl bd entries) md e.name))
      ++ (newOrphans (bootScan md excl bd entries) md).map Prod.snd) := by
  rw [find_kernels, find_kernels_traced, if_neg hx]
  show some _ = some _
  congr 1
  rw [find_kernels_core, bootScan_eq md excl bd entries hn,
    mergeOrphans_eq md _ hmd hki, List.map_append, List.map_map, List.map_map]
  congr 1
  apply List.map_congr_left
  intro e _
  simp only [Function.comp_apply]
  rw [processEntry_version]

/- ------------------------------------------------------------------ -/
/- Path, name-table and classification facts.                          -/
/- ------------------------------------------------------------------ -/

theorem contribsOf_cons (md : ModuleDict) (excl : List KernelFileType)
    (dirPath : Path) (f : BootFile) (fs : List BootFile) :
    contribsOf md excl dirPath (f :: fs) =
      fileContrib md excl dirPath f ++ contribsOf md excl dirPath fs := rfl

theorem pathStarts_refl_append (pre rest : Path) :
    pathStarts pre (pre ++ rest) = true := by
  induction pre with
  | nil => rfl
  | cons a as ih => simp [pathStarts, ih]

theorem pathStarts_of_snoc {l : Path} {a : String} {p : Path}
    (h : pathStarts (l ++ [a]) p = true) : pathStarts l p = true := by
  induction l generalizing p with
  | nil => rfl
  | cons x xs ih =>
    cases p with
    | nil => simp [pathStarts] at h
    | cons b bs =>
      simp [pathStarts] at h ⊢
      exact ⟨h.1, ih h.2⟩

theorem pathStarts_snoc_inj {l : Path} {a b : String} {p : Path}
    (ha : pathStarts (l ++ [a]) p = true) (hb : pathStarts (l ++ [b]) p = true) :
    a = b := by
  induction l generalizing p with
  | nil =>
    cases p with
    | nil => simp [pathStarts] at ha
    | cons c cs =>
      simp [pathStarts] at ha hb
      rw [ha, hb]
  | cons x xs ih =>
    cases p with
    | nil => simp [pathStarts] at ha
    | cons c cs =>
      simp [pathStarts] at ha hb
      exact ih ha.2 hb.2

theorem name_map_eq_kernel {fn : String} :
    name_map fn = KernelFileType.kernel ↔ fn = "linux" := by
  by_cases h1 : fn = "initrd"
  · subst h1
    decide
  · by_cases h2 : fn = "linux"
    · subst h2
      decide
    · unfold name_map
      rw [if_neg h1, if_neg h2]
      constructor
      · intro h
        exact absurd h (by decide)
      · intro h
        exact absurd h h2

theorem moduleFileOk_isKI {g : FileRecord} (h : moduleFileOk g = true) :
    g.isKI = false := by
  cases g <;> simp [moduleFileOk, FileRecord.isKI] at h ⊢

theorem moduleFileOk_isKernelClassified {g : FileRecord} (h : moduleFileOk g = true) :
    g.isKernelClassified = false := by
  cases g <;> simp [moduleFileOk, FileRecord.isKernelClassified] at h ⊢
  exact h

theorem moduleFileOk_ne_emptyDirectory {g : FileRecord} (h : moduleFileOk g = true) :
    ∀ q, g ≠ FileRecord.emptyDirectory q := by
  cases g <;> simp [moduleFileOk] at h ⊢

theorem ModuleFilesOk.isKI {md : ModuleDict} (h : ModuleFilesOk md) :
    ∀ p ∈ md, ∀ f ∈ p.2, f.isKI = false :=
  fun p hp f hf => moduleFileOk_isKI (h p hp f hf)

theorem mem_orphanExtra {d : KDict} {md : ModuleDict} {key : String} {g : FileRecord}
    (h : g ∈ orphanExtra d md key) :
    ∃ fs, (key, fs) ∈ md ∧ g ∈ fs ∧ hasRK d key = false := by
  unfold orphanExtra at h
  rcases mem_dictGet h with ⟨fs, hmem, hg⟩
  rw [List.mem_filter] at hmem
  exact ⟨fs, hmem.1, hg, by simpa using hmem.2⟩

theorem orphanExtra_of_mem {d : KDict} {md : ModuleDict} {key : String}
    {fs : List FileRecord} (hmd : (md.map Prod.fst).Nodup)
    (hmem : (key, fs) ∈ md) (h : hasRK d key = false) :
    orphanExtra d md key = fs := by
  unfold orphanExtra
  apply dictGet_of_mem_nodup
  · rw [List.mem_filter]
    exact ⟨hmem, by simp [h]⟩
  · exact List.Nodup.sublist (List.Sublist.map Prod.fst (List.filter_sublist md)) hmd

theorem orphanExtra_of_hasRK {d : KDict} {md : ModuleDict} {key : String}
    (h : hasRK d key = true) :
    orphanExtra d md key = [] := by
  apply dictGet_eq_nil
  intro p hp
  rw [List.mem_filter] at hp
  intro he
  rw [he] at hp
  rw [h] at hp
  simp at hp

theorem no_kernel_name_left {l1 l2 : List BootFile} {f : BootFile}
    (hnd : ((l1 ++ f :: l2).map BootFile.name).Nodup)
    (hk : name_map f.name = KernelFileType.kernel) :
    ∀ f2 ∈ l1, name_map f2.name ≠ KernelFileType.kernel := by
  intro f2 hf2 hk2
  rw [List.map_append, List.nodup_append] at hnd
  have h1 : f2.name ∈ l1.map BootFile.name := List.mem_map_of_mem _ hf2
  have h2 : f2.name ∈ (f :: l2).map BootFile.name := by
    rw [List.map_cons, name_map_eq_kernel.mp hk2, ← name_map_eq_kernel.mp hk]
    exact List.mem_cons_self _ _
  exact hnd.2.2 h1 h2

theorem contribsOf_noKI {md : ModuleDict} {excl : List KernelFileType}
    {dirPath : Path} {fs : List BootFile}
    (hno : ∀ f ∈ fs, name_map f.name ≠ KernelFileType.kernel) :
    ∀ g ∈ contribsOf md excl dirPath fs, g.isKI = false := by
  intro g hg
  rcases mem_contribsOf.mp hg with ⟨f, hf, hgf⟩
  rcases fileContrib_shape hgf with ⟨t, rfl⟩ | ⟨v, _, hk, _, _⟩
  · rfl
  · exact absurd hk (hno f hf)

theorem dictGet_noKI {md : ModuleDict} {v : String}
    (hki : ∀ p ∈ md, ∀ f ∈ p.2, f.isKI = false) :
    ∀ g ∈ dictGet md v, g.isKI = false := by
  intro g hg
  rcases mem_dictGet hg with ⟨fs, hmem, hgfs⟩
  exact hki (v, fs) hmem g hgfs

theorem fileContrib_kernel_some {md : ModuleDict} {excl : List KernelFileType}
    {dirPath : Path} {f : BootFile} {v : String}
    (hx : KernelFileType.kernel ∉ excl)
    (hk : name_map f.name = KernelFileType.kernel) (hp : f.parse = some v) :
    fileContrib md excl dirPath f =
      dictGet md v ++ [FileRecord.kernelImage (dirPath ++ [f.name]) v] := by
  have hh : isHidden f.name = false := by
    rw [name_map_eq_kernel.mp hk]
    decide
  simp [fileContrib, hh, hk, hp, hx]

/-- Under distinct file names, the internal version parsed from the KERNEL
file of a boot-entry directory is the real_kv of the processed Kernel. -/
theorem real_kv_processEntry {md : ModuleDict} {excl : List KernelFileType}
    {bd : Path} {e : BootEntry} {f : BootFile} {v : String}
    (hx : KernelFileType.kernel ∉ excl)
    (hnd : (e.files.map BootFile.name).Nodup)
    (hki : ∀ p ∈ md, ∀ g ∈ p.2, g.isKI = false)
    (hf : f ∈ e.files) (hk : name_map f.name = KernelFileType.kernel)
    (hp : f.parse = some v) :
    (processEntry md excl bd e).real_kv = some v := by
  rcases List.append_of_mem hf with ⟨l1, l2, hsplit⟩
  rw [hsplit] at hnd
  rw [processEntry_eq, real_kv_mk, hsplit, contribsOf_append, contribsOf_cons,
    fileContrib_kernel_some hx hk hp]
  simp only [List.append_assoc]
  rw [firstKI_append_noKI_left (contribsOf_noKI (no_kernel_name_left hnd hk)),
    firstKI_append_noKI_left (dictGet_noKI hki), List.singleton_append]
  rfl

/- ------------------------------------------------------------------ -/
/- Claims C3, C6, C8, C9.                                              -/
/- ------------------------------------------------------------------ -/

/-- C3: when KernelFileType.KERNEL is in the exclusion set, the assertion of
find_kernels fires before any scanning occurs (no module-directory collection
and no boot-directory enumeration is performed) and discovery aborts with no
result; when KERNEL is not in the exclusion set, the assertion never fires
and both scans run, producing the grouped kernel list. -/
theorem C3_assert_before_scan (md : ModuleDict) (bd : Path)
    (entries : List BootEntry) (excl : List KernelFileType) :
    (KernelFileType.kernel ∈ excl →
      find_kernels_traced md bd entries excl = (none, [])) ∧
    (KernelFileType.kernel ∉ excl →
      find_kernels_traced md bd entries excl =
        (some (find_kernels_core md excl bd entries),
         [ScanEvent.moduleScan, ScanEvent.bootDirScan])) := by
  constructor
  · intro h
    rw [find_kernels_traced, if_pos h]
  · intro h
    rw [find_kernels_traced, if_neg h]

theorem C3_witness :
    find_kernels_traced [] [] [] [KernelFileType.kernel] = (none, []) ∧
    find_kernels_traced [] [] [] [] =
      (some (find_kernels_core [] [] [] []),
       [ScanEvent.moduleScan, ScanEvent.bootDirScan]) :=
  ⟨(C3_assert_before_scan [] [] [] [KernelFileType.kernel]).1 (by decide),
   (C3_assert_before_scan [] [] [] []).2 (by decide)⟩

/-- C6 counterexample: the first candidate file exists but is empty after
trimming, and the second candidate exists with non-empty content; the code
takes the empty token from the first candidate instead of passing over to
the second as the claim states (the claimed rule is resolve_kernel_id_spec). -/
theorem C6_counterexample :
    resolve_kernel_id (some "") (some "abc123") = some "" ∧
    resolve_kernel_id_spec (some "") (some "abc123") = some "abc123" ∧
    resolve_kernel_id (some "") (some "abc123") ≠
      resolve_kernel_id_spec (some "") (some "abc123") := by
  refine ⟨by decide, by decide, by decide⟩

/-- C6 amended: the machine identity token is the trimmed content of the
first candidate file that exists, with no non-emptiness condition (an
existing candidate that is empty after trimming is still taken and the next
candidate is not consulted); the layout-not-applicable condition arises
exactly when neither candidate file exists. -/
theorem C6_first_existing_token (et mi : Option String) :
    (∀ c, et = some c → resolve_kernel_id et mi = some (strip c)) ∧
    (et = none → ∀ c, mi = some c → resolve_kernel_id et mi = some (strip c)) ∧
    (resolve_kernel_id et mi = none ↔ et = none ∧ mi = none) := by
  refine ⟨?_, ?_, ?_⟩
  · intro c hc
    rw [hc]
    rfl
  · intro he c hc
    rw [he, hc]
    rfl
  · cases et with
    | some c => simp [resolve_kernel_id]
    | none =>
      cases mi with
      | some c => simp [resolve_kernel_id]
      | none => simp [resolve_kernel_id]

theorem C6_witness :
    resolve_kernel_id (some " x ") (some "y") = some (strip " x ") ∧
    resolve_kernel_id none (some "y") = some (strip "y") ∧
    (resolve_kernel_id none none = none ↔
      (none : Option String) = none ∧ (none : Option String) = none) :=
  ⟨(C6_first_existing_token (some " x ") (some "y")).1 " x " rfl,
   (C6_first_existing_token none (some "y")).2.1 rfl "y" rfl,
   (C6_first_existing_token none none).2.2⟩

/-- C9: given a resolved identity token, construction probes the candidates
in the fixed order boot/EFI, boot/efi, boot, efi; the first candidate that is
an existing directory becomes the boot directory, none exists gives the
layout-not-applicable condition; and the probe result is what blspec_init
holds when token resolution succeeds. -/
theorem C9_bootdir_probe (isDir : Path → Bool) (readFile : Path → Option String)
    (root : Path) (kid : String) :
    (resolve_bootdir isDir root kid =
      if isDir (root ++ ["boot", "EFI"] ++ [kid]) then
        some (root ++ ["boot", "EFI"] ++ [kid])
      else if isDir (root ++ ["boot", "efi"] ++ [kid]) then
        some (root ++ ["boot", "efi"] ++ [kid])
      else if isDir (root ++ ["boot"] ++ [kid]) then
        some (root ++ ["boot"] ++ [kid])
      else if isDir (root ++ ["efi"] ++ [kid]) then
        some (root ++ ["efi"] ++ [kid])
      else none) ∧
    (resolve_kernel_id (readFile (root ++ ["etc", "kernel", "entry-token"]))
        (readFile (root ++ ["etc", "machine-id"])) = some kid →
      blspec_init readFile isDir root = resolve_bootdir isDir root kid) := by
  constructor
  · rw [resolve_bootdir, potential_dirs]
    simp only [List.map_cons, List.map_nil]
    by_cases h1 : isDir (root ++ ["boot", "EFI", kid]) <;>
      by_cases h2 : isDir (root ++ ["boot", "efi", kid]) <;>
        by_cases h3 : isDir (root ++ ["boot", kid]) <;>
          by_cases h4 : isDir (root ++ ["efi", kid]) <;>
            simp [List.find?, h1, h2, h3, h4]
  · intro h
    rw [blspec_init, h]

theorem C9_witness :
    blspec_init (fun p => if p = ["etc", "machine-id"] then some "abc" else none)
        (fun p => decide (p = ["boot", "efi", "abc"])) [] =
      resolve_bootdir (fun p => decide (p = ["boot", "efi", "abc"])) [] "abc" :=
  (C9_bootdir_probe (fun p => decide (p = ["boot", "efi", "abc"]))
    (fun p => if p = ["etc", "machine-id"] then some "abc" else none) [] "abc").2
    (by decide)

/- ------------------------------------------------------------------ -/
/- Claim C8: hidden and symlinked entries never contribute.            -/
/- ------------------------------------------------------------------ -/

theorem dropHiddenFiles_name (e : BootEntry) : (dropHiddenFiles e).name = e.name := rfl

theorem dropHiddenFiles_files (e : BootEntry) :
    (dropHiddenFiles e).files = e.files.filter fun f => !isHidden f.name := rfl

theorem goodEntry_dropHidden (e : BootEntry) :
    goodEntry (dropHiddenFiles e) = goodEntry e := rfl

theorem fileContrib_hidden {md : ModuleDict} {excl : List KernelFileType}
    {dirPath : Path} {f : BootFile} (h : isHidden f.name = true) :
    fileContrib md excl dirPath f = [] := by
  unfold fileContrib
  rw [if_pos h]

theorem contribsOf_filter (md : ModuleDict) (excl : List KernelFileType)
    (dirPath : Path) (fs : List BootFile) :
    contribsOf md excl dirPath (fs.filter fun f => !isHidden f.name) =
      contribsOf md excl dirPath fs := by
  induction fs with
  | nil => rfl
  | cons f fs ih =>
    by_cases h : isHidden f.name
    · rw [List.filter_cons_of_neg (by simp [h]), contribsOf_cons,
        fileContrib_hidden h, List.nil_append, ih]
    · rw [List.filter_cons_of_pos (by simp [h]), contribsOf_cons, contribsOf_cons, ih]

theorem processEntry_dropHidden (md : ModuleDict) (excl : List KernelFileType)
    (bd : Path) (e : BootEntry) :
    processEntry md excl bd (dropHiddenFiles e) = processEntry md excl bd e := by
  rw [processEntry_eq, processEntry_eq, dropHiddenFiles_name, dropHiddenFiles_files,
    contribsOf_filter]

theorem bootScan_filter (md : ModuleDict) (excl : List KernelFileType) (bd : Path)
    (entries : List BootEntry) :
    bootScan md excl bd ((entries.filter goodEntry).map dropHiddenFiles) =
      bootScan md excl bd entries := by
  unfold bootScan
  suffices h : ∀ d : KDict,
      ((entries.filter goodEntry).map dropHiddenFiles).foldl (entryStep md excl bd) d
        = entries.foldl (entryStep md excl bd) d from h []
  intro d
  induction entries generalizing d with
  | nil => rfl
  | cons e es ih =>
    by_cases hg : goodEntry e
    · rw [List.filter_cons_of_pos hg, List.map_cons, List.foldl_cons, List.foldl_cons,
        entryStep_eq, entryStep_eq, goodEntry_dropHidden, if_pos hg, if_pos hg,
        processEntry_dropHidden, dropHiddenFiles_name]
      exact ih _
    · rw [List.filter_cons_of_neg hg, List.foldl_cons, entryStep_eq, if_neg hg]
      exact ih d

/-- C8: hidden (dot-prefixed) entries of the boot-entry root, symlinks and
non-directories never yield a Kernel, and hidden file names inside a
boot-entry subdirectory never yield a FileRecord: find_kernels computes the
same result on the listings with all of them removed. -/
theorem C8_hidden_never_contribute (md : ModuleDict) (bd : Path)
    (entries : List BootEntry) (excl : List KernelFileType) :
    find_kernels md bd ((entries.filter goodEntry).map dropHiddenFiles) excl =
      find_kernels md bd entries excl := by
  rw [find_kernels, find_kernels, find_kernels_traced, find_kernels_traced]
  by_cases hx : KernelFileType.kernel ∈ excl
  · rw [if_pos hx, if_pos hx]
  · rw [if_neg hx, if_neg hx]
    show some _ = some _
    congr 1
    rw [find_kernels_core, find_kernels_core, bootScan_filter]

/- ------------------------------------------------------------------ -/
/- Claim C1: orphan module trees and display-name coincidence.         -/
/- ------------------------------------------------------------------ -/

/-- C1 counterexample: the module key "5.10" equals a boot-entry directory
display name but no Kernel's internal version (the entry has no kernel
image, so the key matches no real_kv); the claim demands a separate orphan
Kernel keyed "5.10" containing exactly the module tree's files, but
find_kernels produces no such Kernel — the files are merged into the
display-name Kernel by kernels.setdefault. -/
theorem C1_counterexample :
    hasRK (bootScan [("5.10", [FileRecord.generic ["m1"] KernelFileType.modules])]
      [] ["b"] [⟨"5.10", false, true, []⟩]) "5.10" = false ∧
    ¬ ∃ k ∈ (find_kernels [("5.10", [FileRecord.generic ["m1"] KernelFileType.modules])]
        ["b"] [⟨"5.10", false, true, []⟩] []).getD [],
      k.version = "5.10" ∧
      k.all_files = [FileRecord.generic ["m1"] KernelFileType.modules] := by
  constructor
  · decide
  · decide

/-- C1 amended: for every module key mkv that equals no boot-scan Kernel's
real (internal) version, the module tree's files are appended to the Kernel
stored under mkv: when a processed boot entry is named mkv they are merged
into that entry's Kernel rather than forming a separate orphan; only when no
processed entry bears that name is a fresh orphan Kernel created containing
exactly the module tree's files. -/
theorem C1_orphan_merge (md : ModuleDict) (excl : List KernelFileType) (bd : Path)
    (entries : List BootEntry) (mkv : String) (fobjs : List FileRecord)
    (hx : KernelFileType.kernel ∉ excl)
    (hn : ((entries.filter goodEntry).map BootEntry.name).Nodup)
    (hmd : (md.map Prod.fst).Nodup)
    (hki : ∀ p ∈ md, ∀ f ∈ p.2, f.isKI = false)
    (hmem : (mkv, fobjs) ∈ md)
    (hno : hasRK (bootScan md excl bd entries) mkv = false) :
    ∃ ks, find_kernels md bd entries excl = some ks ∧
      ∃ k ∈ ks, k.version = mkv ∧
        ((∃ e ∈ entries.filter goodEntry, e.name = mkv ∧
            k.all_files = (processEntry md excl bd e).all_files ++ fobjs) ∨
         ((∀ e ∈ entries.filter goodEntry, e.name ≠ mkv) ∧ k.all_files = fobjs)) := by
  refine ⟨_, find_kernels_eq md excl bd entries hx hn hmd hki, ?_⟩
  have hOE : orphanExtra (bootScan md excl bd entries) md mkv = fobjs :=
    orphanExtra_of_mem hmd hmem hno
  by_cases hcm : ∃ e ∈ entries.filter goodEntry, e.name = mkv
  · rcases hcm with ⟨e, he, hename⟩
    refine ⟨Kernel.mk e.name ((processEntry md excl bd e).all_files ++
      orphanExtra (bootScan md excl bd entries) md e.name),
      List.mem_append_left _ (List.mem_map_of_mem _ he), hename, ?_⟩
    left
    refine ⟨e, he, hename, ?_⟩
    rw [hename, hOE]
  · push_neg at hcm
    have hkm : keyMem (bootScan md excl bd entries) mkv = false := by
      rw [keyMem_eq_false]
      intro q hq
      rw [bootScan_eq md excl bd entries hn] at hq
      rcases List.mem_map.mp hq with ⟨e, he, heq⟩
      rw [← heq]
      exact fun h => hcm e he h
    have hmemNO : (mkv, Kernel.mk mkv fobjs) ∈
        newOrphans (bootScan md excl bd entries) md := by
      unfold newOrphans
      refine List.mem_map.mpr ⟨(mkv, fobjs), ?_, rfl⟩
      rw [List.mem_filter]
      exact ⟨hmem, by simp [hno, hkm]⟩
    exact ⟨Kernel.mk mkv fobjs,
      List.mem_append_right _
        (List.mem_map.mpr ⟨(mkv, Kernel.mk mkv fobjs), hmemNO, rfl⟩),
      rfl, Or.inr ⟨hcm, rfl⟩⟩

/- ------------------------------------------------------------------ -/
/- Claim C4: successful parse associates the module tree.              -/
/- ------------------------------------------------------------------ -/

theorem processEntry_all_files (md : ModuleDict) (excl : List KernelFileType)
    (bd : Path) (e : BootEntry) :
    (processEntry md excl bd e).all_files =
      contribsOf md excl (bd ++ [e.name]) e.files ++
        [FileRecord.emptyDirectory (bd ++ [e.name])] := by
  rw [processEntry_eq]

/-- C4: when a processed boot entry holds a KERNEL-typed file that parses to
internal version v and v is a module-tree key, all of that module set's
records are contained in that entry's Kernel, and no separate orphan Kernel
keyed v appears in the result: every result Kernel with version v is exactly
an untouched boot-entry Kernel. -/
theorem C4_module_association (md : ModuleDict) (excl : List KernelFileType)
    (bd : Path) (entries : List BootEntry) (e : BootEntry) (f : BootFile)
    (v : String) (fobjs : List FileRecord)
    (hx : KernelFileType.kernel ∉ excl)
    (hn : ((entries.filter goodEntry).map BootEntry.name).Nodup)
    (hmd : (md.map Prod.fst).Nodup)
    (hki : ∀ p ∈ md, ∀ g ∈ p.2, g.isKI = false)
    (hnd : (e.files.map BootFile.name).Nodup)
    (he : e ∈ entries) (hge : goodEntry e = true)
    (hf : f ∈ e.files) (hk : name_map f.name = KernelFileType.kernel)
    (hp : f.parse = some v)
    (hmem : (v, fobjs) ∈ md) :
    ∃ ks, find_kernels md bd entries excl = some ks ∧
      (∃ k ∈ ks, k.version = e.name ∧ ∀ g ∈ fobjs, g ∈ k.all_files) ∧
      (∀ k ∈ ks, k.version = v →
        ∃ e2 ∈ entries.filter goodEntry, e2.name = v ∧
          k.all_files = (processEntry md excl bd e2).all_files) := by
  have heg : e ∈ entries.filter goodEntry := List.mem_filter.mpr ⟨he, hge⟩
  have hrv : (processEntry md excl bd e).real_kv = some v :=
    real_kv_processEntry hx hnd hki hf hk hp
  have hRK : hasRK (bootScan md excl bd entries) v = true := by
    rw [hasRK_iff]
    refine ⟨(e.name, processEntry md excl bd e), ?_, hrv⟩
    rw [bootScan_eq md excl bd entries hn]
    exact List.mem_map_of_mem _ heg
  refine ⟨_, find_kernels_eq md excl bd entries hx hn hmd hki, ?_, ?_⟩
  · refine ⟨Kernel.mk e.name ((processEntry md excl bd e).all_files ++
      orphanExtra (bootScan md excl bd entries) md e.name),
      List.mem_append_left _ (List.mem_map_of_mem _ heg), rfl, ?_⟩
    intro g hg
    apply List.mem_append_left
    rw [processEntry_all_files]
    apply List.mem_append_left
    rw [mem_contribsOf]
    refine ⟨f, hf, ?_⟩
    rw [fileContrib_kernel_some hx hk hp]
    apply List.mem_append_left
    rw [dictGet_of_mem_nodup hmem hmd]
    exact hg
  · intro k hk2 hkv
    rcases List.mem_append.mp hk2 with hkA | hkB
    · rcases List.mem_map.mp hkA with ⟨e2, he2, heq⟩
      have he2v : e2.name = v := by
        rw [← heq] at hkv
        exact hkv
      refine ⟨e2, he2, he2v, ?_⟩
      rw [← heq]
      show (processEntry md excl bd e2).all_files ++
        orphanExtra (bootScan md excl bd entries) md e2.name = _
      rw [he2v, orphanExtra_of_hasRK hRK, List.append_nil]
    · exfalso
      rcases List.mem_map.mp hkB with ⟨q, hq, heq⟩
      unfold newOrphans at hq
      rcases List.mem_map.mp hq with ⟨p, hp2, heq2⟩
      rw [List.mem_filter] at hp2
      have hpv : p.1 = v := by
        rw [← heq2] at heq
        rw [← heq] at hkv
        exact hkv
      have hcond := hp2.2
      rw [hpv] at hcond
      simp [hRK] at hcond

theorem C4_witness :
    ∃ ks, find_kernels
        [("5.10-int", [FileRecord.generic ["lib", "mod"] KernelFileType.modules])]
        ["b"] [⟨"5.10", false, true, [⟨"linux", some "5.10-int"⟩]⟩] [] = some ks ∧
      (∃ k ∈ ks, k.version = "5.10" ∧
        ∀ g ∈ [FileRecord.generic ["lib", "mod"] KernelFileType.modules],
          g ∈ k.all_files) ∧
      (∀ k ∈ ks, k.version = "5.10-int" →
        ∃ e2 ∈ ([⟨"5.10", false, true, [⟨"linux", some "5.10-int"⟩]⟩] :
            List BootEntry).filter goodEntry,
          e2.name = "5.10-int" ∧
          k.all_files = (processEntry
            [("5.10-int", [FileRecord.generic ["lib", "mod"] KernelFileType.modules])]
            [] ["b"] e2).all_files) :=
  C4_module_association
    [("5.10-int", [FileRecord.generic ["lib", "mod"] KernelFileType.modules])]
    [] ["b"] [⟨"5.10", false, true, [⟨"linux", some "5.10-int"⟩]⟩]
    ⟨"5.10", false, true, [⟨"linux", some "5.10-int"⟩]⟩ ⟨"linux", some "5.10-int"⟩
    "5.10-int" [FileRecord.generic ["lib", "mod"] KernelFileType.modules]
    (by decide) (by decide) (by decide) (by decide) (by decide) (by decide)
    (by decide) (by decide) (by decide) (by decide) (by decide)

/- ------------------------------------------------------------------ -/
/- Claim C5: unrecognized kernel images are kept as generic records.   -/
/- ------------------------------------------------------------------ -/

theorem contribsOf_all_fail {md : ModuleDict} {excl : List KernelFileType}
    {dirPath : Path} {fs : List BootFile}
    (hfail : ∀ f ∈ fs, name_map f.name = KernelFileType.kernel → f.parse = none) :
    contribsOf md excl dirPath fs =
      (fs.filter fun f => !isHidden f.name && !decide (name_map f.name ∈ excl)).map
        fun f => FileRecord.generic (dirPath ++ [f.name]) (name_map f.name) := by
  induction fs with
  | nil => rfl
  | cons f fs ih =>
    rw [contribsOf_cons, ih fun g hg hk => hfail g (List.mem_cons_of_mem f hg) hk]
    by_cases h1 : isHidden f.name
    · rw [fileContrib_hidden h1, List.nil_append,
        List.filter_cons_of_neg (by simp [h1])]
    · by_cases h2 : name_map f.name ∈ excl
      · have hfc : fileContrib md excl dirPath f = [] := by
          by_cases h3 : name_map f.name = KernelFileType.kernel
          · have hp := hfail f (List.mem_cons_self f fs) h3
            have h2k : KernelFileType.kernel ∈ excl := h3 ▸ h2
            simp [fileContrib, h1, h3, hp, h2k]
          · simp [fileContrib, h1, h2, h3]
        rw [hfc, List.nil_append, List.filter_cons_of_neg (by simp [h1, h2])]
      · have hfc : fileContrib md excl dirPath f =
            [FileRecord.generic (dirPath ++ [f.name]) (name_map f.name)] := by
          by_cases h3 : name_map f.name = KernelFileType.kernel
          · have hp := hfail f (List.mem_cons_self f fs) h3
            have h2k : KernelFileType.kernel ∉ excl := h3 ▸ h2
            simp [fileContrib, h1, h3, hp, h2k]
          · simp [fileContrib, h1, h2, h3]
        rw [hfc, List.filter_cons_of_pos (by simp [h1, h2]), List.map_cons,
          List.singleton_append]

/-- C5: when every KERNEL-typed file of a processed boot entry fails to
parse, the failure does not propagate: the entry still yields a Kernel whose
files are exactly the generic classified records of its non-hidden,
non-excluded files (the KERNEL-slot file staying a generic KERNEL-typed
record with no internal version) plus the EmptyDirectory, possibly followed
by display-name-keyed orphan module files from the second pass; no
KernelImage record exists and no module association happens via the file. -/
theorem C5_unrecognized_kernel (md : ModuleDict) (excl : List KernelFileType)
    (bd : Path) (entries : List BootEntry) (e : BootEntry)
    (hx : KernelFileType.kernel ∉ excl)
    (hn : ((entries.filter goodEntry).map BootEntry.name).Nodup)
    (hmd : (md.map Prod.fst).Nodup)
    (hki : ∀ p ∈ md, ∀ g ∈ p.2, g.isKI = false)
    (he : e ∈ entries) (hge : goodEntry e = true)
    (hfail : ∀ f ∈ e.files, name_map f.name = KernelFileType.kernel →
      f.parse = none) :
    ∃ ks, find_kernels md bd entries excl = some ks ∧
      ∃ k ∈ ks, k.version = e.name ∧
        k.all_files =
          ((e.files.filter fun f =>
              !isHidden f.name && !decide (name_map f.name ∈ excl)).map
            fun f => FileRecord.generic ((bd ++ [e.name]) ++ [f.name])
              (name_map f.name))
          ++ [FileRecord.emptyDirectory (bd ++ [e.name])]
          ++ orphanExtra (bootScan md excl bd entries) md e.name ∧
        ∀ g ∈ k.all_files, g.isKI = false := by
  refine ⟨_, find_kernels_eq md excl bd entries hx hn hmd hki, ?_⟩
  have heg : e ∈ entries.filter goodEntry := List.mem_filter.mpr ⟨he, hge⟩
  refine ⟨Kernel.mk e.name ((processEntry md excl bd e).all_files ++
      orphanExtra (bootScan md excl bd entries) md e.name),
    List.mem_append_left _ (List.mem_map_of_mem _ heg), rfl, ?_, ?_⟩
  · rw [processEntry_all_files, contribsOf_all_fail hfail]
  · intro g hg
    rcases List.mem_append.mp hg with h | h
    · rw [processEntry_all_files, contribsOf_all_fail hfail] at h
      rcases List.mem_append.mp h with h2 | h2
      · rcases List.mem_map.mp h2 with ⟨f, _, heq⟩
        rw [← heq]
        rfl
      · rw [List.mem_singleton] at h2
        rw [h2]
        rfl
    · rcases mem_orphanExtra h with ⟨fs, hmem, hgfs, _⟩
      exact hki (e.name, fs) hmem g hgfs

theorem C5_witness :
    ∃ ks, find_kernels [] ["b"]
        [⟨"5.10", false, true, [⟨"linux", none⟩, ⟨"initrd", some "z"⟩]⟩]
        [KernelFileType.initramfs] = some ks ∧
      ∃ k ∈ ks, k.version = "5.10" ∧
        k.all_files =
          ((([⟨"linux", none⟩, ⟨"initrd", some "z"⟩] : List BootFile).filter fun f =>
              !isHidden f.name &&
                !decide (name_map f.name ∈ [KernelFileType.initramfs])).map
            fun f => FileRecord.generic ((["b"] ++ ["5.10"]) ++ [f.name])
              (name_map f.name))
          ++ [FileRecord.emptyDirectory (["b"] ++ ["5.10"])]
          ++ orphanExtra (bootScan [] [KernelFileType.initramfs] ["b"]
              [⟨"5.10", false, true, [⟨"linux", none⟩, ⟨"initrd", some "z"⟩]⟩]) []
              "5.10" ∧
        ∀ g ∈ k.all_files, g.isKI = false :=
  C5_unrecognized_kernel [] [KernelFileType.initramfs] ["b"]
    [⟨"5.10", false, true, [⟨"linux", none⟩, ⟨"initrd", some "z"⟩]⟩]
    ⟨"5.10", false, true, [⟨"linux", none⟩, ⟨"initrd", some "z"⟩]⟩
    (by decide) (by decide) (by decide) (by decide) (by decide) (by decide)
    (by decide)

/- ------------------------------------------------------------------ -/
/- Claim C10: ordering within a boot-entry Kernel.                     -/
/- ------------------------------------------------------------------ -/

/-- C10 counterexample: the orphan-reconciliation pass merges module files
keyed by the display name into the boot-entry Kernel after its
EmptyDirectory record, so the EmptyDirectory is not the last element of the
returned Kernel's all_files. -/
theorem C10_counterexample :
    ∃ k ∈ (find_kernels [("5.10", [FileRecord.generic ["m1"] KernelFileType.modules])]
        ["b"] [⟨"5.10", false, true, []⟩] []).getD [],
      FileRecord.emptyDirectory ["b", "5.10"] ∈ k.all_files ∧
      k.all_files.getLast? ≠ some (FileRecord.emptyDirectory ["b", "5.10"]) := by
  decide

/-- C10 amended: within the boot-entry scan (before orphan reconciliation,
which may append module files after it), the EmptyDirectory record is the
last element of the processed Kernel's file list, and when the kernel image
parses with internal version v the associated module-tree records appear
immediately before the KernelImage record. -/
theorem C10_order (md : ModuleDict) (excl : List KernelFileType) (bd : Path)
    (e : BootEntry) (f : BootFile) (v : String)
    (hx : KernelFileType.kernel ∉ excl) (hf : f ∈ e.files)
    (hk : name_map f.name = KernelFileType.kernel) (hp : f.parse = some v) :
    (processEntry md excl bd e).all_files.getLast? =
      some (FileRecord.emptyDirectory (bd ++ [e.name])) ∧
    ∃ l1 l2, (processEntry md excl bd e).all_files =
      l1 ++ (dictGet md v ++
        [FileRecord.kernelImage ((bd ++ [e.name]) ++ [f.name]) v]) ++ l2 := by
  constructor
  · rw [processEntry_all_files]
    exact List.getLast?_concat _
  · rcases List.append_of_mem hf with ⟨l1, l2, hsplit⟩
    rw [processEntry_all_files, hsplit, contribsOf_append, contribsOf_cons,
      fileContrib_kernel_some hx hk hp]
    refine ⟨contribsOf md excl (bd ++ [e.name]) l1,
      contribsOf md excl (bd ++ [e.name]) l2 ++
        [FileRecord.emptyDirectory (bd ++ [e.name])], ?_⟩
    simp [List.append_assoc]

theorem C10_witness :
    (processEntry [("v", [FileRecord.generic ["m1"] KernelFileType.modules])] []
      ["b"] ⟨"5.10", false, true, [⟨"linux", some "v"⟩]⟩).all_files.getLast? =
        some (FileRecord.emptyDirectory (["b"] ++ ["5.10"])) ∧
    ∃ l1 l2, (processEntry [("v", [FileRecord.generic ["m1"] KernelFileType.modules])]
        [] ["b"] ⟨"5.10", false, true, [⟨"linux", some "v"⟩]⟩).all_files =
      l1 ++ (dictGet [("v", [FileRecord.generic ["m1"] KernelFileType.modules])] "v" ++
        [FileRecord.kernelImage ((["b"] ++ ["5.10"]) ++ ["linux"]) "v"]) ++ l2 :=
  C10_order [("v", [FileRecord.generic ["m1"] KernelFileType.modules])] [] ["b"]
    ⟨"5.10", false, true, [⟨"linux", some "v"⟩]⟩ ⟨"linux", some "v"⟩ "v"
    (by decide) (by decide) (by decide) (by decide)

/- ------------------------------------------------------------------ -/
/- Claim C7: exactly one KERNEL record and one EmptyDirectory.         -/
/- ------------------------------------------------------------------ -/

theorem countP_isKernelClassified_contribsOf {md : ModuleDict}
    {excl : List KernelFileType} {dirPath : Path} {fs : List BootFile}
    (hx : KernelFileType.kernel ∉ excl) (hmf : ModuleFilesOk md) :
    (contribsOf md excl dirPath fs).countP (fun g => g.isKernelClassified)
      = fs.countP fun f =>
          !isHidden f.name && decide (name_map f.name = KernelFileType.kernel) := by
  induction fs with
  | nil => rfl
  | cons f fs ih =>
    rw [contribsOf_cons, List.countP_append, ih, List.countP_cons]
    have hfc : (fileContrib md excl dirPath f).countP (fun g => g.isKernelClassified)
        = if (!isHidden f.name &&
            decide (name_map f.name = KernelFileType.kernel)) = true then 1 else 0 := by
      by_cases h1 : isHidden f.name
      · rw [fileContrib_hidden h1]
        simp [h1]
      · by_cases h3 : name_map f.name = KernelFileType.kernel
        · cases hp : f.parse with
          | some v =>
            rw [fileContrib_kernel_some hx h3 hp, List.countP_append]
            have hdg : (dictGet md v).countP (fun g => g.isKernelClassified) = 0 := by
              rw [List.countP_eq_zero]
              intro g hg
              rcases mem_dictGet hg with ⟨fs2, hmem, hgfs⟩
              simp [moduleFileOk_isKernelClassified (hmf (v, fs2) hmem g hgfs)]
            rw [hdg]
            simp [h1, h3, FileRecord.isKernelClassified]
          | none =>
            have hone : fileContrib md excl dirPath f =
                [FileRecord.generic (dirPath ++ [f.name]) (name_map f.name)] := by
              simp [fileContrib, h1, h3, hp, hx]
            rw [hone]
            simp [h1, h3, FileRecord.isKernelClassified]
        · by_cases h2 : name_map f.name ∈ excl
          · have hnil : fileContrib md excl dirPath f = [] := by
              simp [fileContrib, h1, h2, h3]
            rw [hnil]
            simp [h1, h3]
          · have hone : fileContrib md excl dirPath f =
                [FileRecord.generic (dirPath ++ [f.name]) (name_map f.name)] := by
              simp [fileContrib, h1, h2, h3]
            rw [hone]
            simp [h1, h3, FileRecord.isKernelClassified]
    rw [hfc]
    exact Nat.add_comm _ _

theorem count_emptyDirectory_contribsOf {md : ModuleDict}
    {excl : List KernelFileType} {dirPath : Path} {fs : List BootFile} {q : Path}
    (hmf : ModuleFilesOk md) :
    (contribsOf md excl dirPath fs).count (FileRecord.emptyDirectory q) = 0 := by
  rw [List.count_eq_zero]
  intro hmem
  rcases mem_contribsOf.mp hmem with ⟨f, hf, hgf⟩
  rcases fileContrib_shape hgf with ⟨t, heq⟩ | ⟨v, _, _, _, hor⟩
  · simp at heq
  · rcases hor with heq | hdg
    · simp at heq
    · rcases mem_dictGet hdg with ⟨fs2, hmem2, hgfs⟩
      have := hmf (v, fs2) hmem2 _ hgfs
      simp [moduleFileOk] at this

theorem kernel_pred_eq (f : BootFile) :
    (!isHidden f.name && decide (name_map f.name = KernelFileType.kernel))
      = decide (f.name = "linux") := by
  by_cases h : f.name = "linux"
  · rw [h]
    decide
  · have h2 : name_map f.name ≠ KernelFileType.kernel :=
      fun hh => h (name_map_eq_kernel.mp hh)
    simp [h, h2]

theorem countP_name_linux (fs : List BootFile) :
    (fs.countP fun f => decide (f.name = "linux"))
      = (fs.map BootFile.name).count "linux" := by
  induction fs with
  | nil => rfl
  | cons f fs ih =>
    rw [List.countP_cons, List.map_cons, List.count_cons, ih]
    by_cases h : f.name = "linux" <;> simp [h]

/-- C7: for every processed boot entry, the resulting Kernel's file list
contains exactly one EmptyDirectory record for the entry directory
(appended regardless of the exclusion set); and when the entry contains a
file whose name maps to type KERNEL, the list contains exactly one record
classified KERNEL, regardless of what other files are present. -/
theorem C7_exactly_one (md : ModuleDict) (excl : List KernelFileType) (bd : Path)
    (entries : List BootEntry) (e : BootEntry)
    (hx : KernelFileType.kernel ∉ excl)
    (hn : ((entries.filter goodEntry).map BootEntry.name).Nodup)
    (hmd : (md.map Prod.fst).Nodup)
    (hmf : ModuleFilesOk md)
    (hnd : (e.files.map BootFile.name).Nodup)
    (he : e ∈ entries) (hge : goodEntry e = true) :
    ∃ ks, find_kernels md bd entries excl = some ks ∧
      ∃ k ∈ ks, k.version = e.name ∧
        k.all_files.count (FileRecord.emptyDirectory (bd ++ [e.name])) = 1 ∧
        ((∃ f ∈ e.files, name_map f.name = KernelFileType.kernel) →
          k.all_files.countP (fun g => g.isKernelClassified) = 1) := by
  have hki := ModuleFilesOk.isKI hmf
  refine ⟨_, find_kernels_eq md excl bd entries hx hn hmd hki, ?_⟩
  have heg : e ∈ entries.filter goodEntry := List.mem_filter.mpr ⟨he, hge⟩
  refine ⟨Kernel.mk e.name ((processEntry md excl bd e).all_files ++
      orphanExtra (bootScan md excl bd entries) md e.name),
    List.mem_append_left _ (List.mem_map_of_mem _ heg), rfl, ?_, ?_⟩
  · show ((processEntry md excl bd e).all_files ++ _).count _ = 1
    rw [List.count_append, processEntry_all_files, List.count_append,
      count_emptyDirectory_contribsOf hmf]
    have hOE0 : (orphanExtra (bootScan md excl bd entries) md e.name).count
        (FileRecord.emptyDirectory (bd ++ [e.name])) = 0 := by
      rw [List.count_eq_zero]
      intro hmem
      rcases mem_orphanExtra hmem with ⟨fs2, hmem2, hgfs, _⟩
      have := hmf (e.name, fs2) hmem2 _ hgfs
      simp [moduleFileOk] at this
    rw [hOE0]
    simp
  · intro hlin
    show ((processEntry md excl bd e).all_files ++ _).countP _ = 1
    rw [List.countP_append, processEntry_all_files, List.countP_append,
      countP_isKernelClassified_contribsOf hx hmf]
    have hOE0 : (orphanExtra (bootScan md excl bd entries) md e.name).countP
        (fun g => g.isKernelClassified) = 0 := by
      rw [List.countP_eq_zero]
      intro g hg
      rcases mem_orphanExtra hg with ⟨fs2, hmem2, hgfs, _⟩
      simp [moduleFileOk_isKernelClassified (hmf (e.name, fs2) hmem2 g hgfs)]
    rw [hOE0]
    have hED : ([FileRecord.emptyDirectory (bd ++ [e.name])]).countP
        (fun g => g.isKernelClassified) = 0 := by
      simp [FileRecord.isKernelClassified]
    rw [hED]
    have hpred : (e.files.countP fun f =>
        !isHidden f.name && decide (name_map f.name = KernelFileType.kernel))
        = (e.files.map BootFile.name).count "linux" := by
      rw [List.countP_congr fun f _ => by rw [kernel_pred_eq f], countP_name_linux]
    rw [hpred]
    rcases hlin with ⟨f0, hf0, hk0⟩
    have h1 : (e.files.map BootFile.name).count "linux" ≤ 1 :=
      List.nodup_iff_count_le_one.mp hnd "linux"
    have h2 : 0 < (e.files.map BootFile.name).count "linux" := by
      rw [List.count_pos_iff, ← name_map_eq_kernel.mp hk0]
      exact List.mem_map_of_mem _ hf0
    omega

theorem C7_witness :
    ∃ ks, find_kernels [("w", [FileRecord.generic ["mw"] KernelFileType.misc])]
        ["b"] [⟨"5.10", false, true,
          [⟨"linux", some "w"⟩, ⟨"initrd", none⟩, ⟨"cfg", none⟩]⟩] [] = some ks ∧
      ∃ k ∈ ks, k.version = "5.10" ∧
        k.all_files.count (FileRecord.emptyDirectory (["b"] ++ ["5.10"])) = 1 ∧
        ((∃ f ∈ ([⟨"linux", some "w"⟩, ⟨"initrd", none⟩, ⟨"cfg", none⟩] :
            List BootFile), name_map f.name = KernelFileType.kernel) →
          k.all_files.countP (fun g => g.isKernelClassified) = 1) :=
  C7_exactly_one [("w", [FileRecord.generic ["mw"] KernelFileType.misc])] [] ["b"]
    [⟨"5.10", false, true, [⟨"linux", some "w"⟩, ⟨"initrd", none⟩, ⟨"cfg", none⟩]⟩]
    ⟨"5.10", false, true, [⟨"linux", some "w"⟩, ⟨"initrd", none⟩, ⟨"cfg", none⟩]⟩
    (by decide) (by decide) (by decide) (by decide) (by decide) (by decide)
    (by decide)

/- ------------------------------------------------------------------ -/
/- Claim C2: file ownership across Kernels.                            -/
/- ------------------------------------------------------------------ -/

theorem pathStarts_self (l : Path) : pathStarts l l = true := by
  have h := pathStarts_refl_append l []
  rwa [List.append_nil] at h

theorem mem_parsedVersions {fs : List BootFile} {v : String} :
    v ∈ parsedVersions fs ↔
      ∃ f ∈ fs, isHidden f.name = false ∧
        name_map f.name = KernelFileType.kernel ∧ f.parse = some v := by
  unfold parsedVersions
  rw [List.mem_filterMap]
  constructor
  · rintro ⟨f, hf, hif⟩
    by_cases hc : (!isHidden f.name &&
        decide (name_map f.name = KernelFileType.kernel)) = true
    · rw [if_pos hc] at hif
      simp only [Bool.and_eq_true, Bool.not_eq_true', decide_eq_true_eq] at hc
      exact ⟨f, hf, hc.1, hc.2, hif⟩
    · rw [if_neg hc] at hif
      cases hif
  · rintro ⟨f, hf, h1, h2, h3⟩
    refine ⟨f, hf, ?_⟩
    rw [if_pos (by simp [h1, h2]), h3]

/-- Every record of a processed boot-entry Kernel is either located under
the entry directory or taken from the module tree of a parsed version. -/
theorem mem_kernel_files_shape {md : ModuleDict} {excl : List KernelFileType}
    {bd : Path} {e : BootEntry} {g : FileRecord}
    (hg : g ∈ (processEntry md excl bd e).all_files) :
    pathStarts (bd ++ [e.name]) g.path = true ∨
    (∃ v, v ∈ parsedVersions e.files ∧ g ∈ dictGet md v) := by
  rw [processEntry_all_files] at hg
  rcases List.mem_append.mp hg with h | h
  · rcases mem_contribsOf.mp h with ⟨f, hf, hgf⟩
    rcases fileContrib_shape hgf with ⟨t, rfl⟩ | ⟨v, hh, hk, hp, hor⟩
    · left
      exact pathStarts_refl_append _ _
    · rcases hor with rfl | hdg
      · left
        exact pathStarts_refl_append _ _
      · right
        refine ⟨v, ?_, hdg⟩
        rw [mem_parsedVersions]
        exact ⟨f, hf, hh, hk, hp⟩
  · rw [List.mem_singleton] at h
    rw [h]
    left
    exact pathStarts_self _

/-- Module files attached to two distinct keys of a well-formed module
mapping never coincide. -/
theorem md_value_disjoint {md : ModuleDict} {k1 k2 : String}
    {fs1 fs2 : List FileRecord} {g : FileRecord}
    (hdisj : List.Pairwise (fun p q => ∀ g2 ∈ p.2, g2 ∉ q.2) md)
    (h1 : (k1, fs1) ∈ md) (h2 : (k2, fs2) ∈ md) (hne : k1 ≠ k2)
    (hg1 : g ∈ fs1) (hg2 : g ∈ fs2) : False := by
  have hsym : Symmetric (fun p q : String × List FileRecord =>
      ∀ g2 ∈ p.2, g2 ∉ q.2) := by
    intro p q h g2 hgq hgp
    exact h g2 hgp hgq
  have hpairne : ((k1, fs1) : String × List FileRecord) ≠ (k2, fs2) := by
    intro hcontr
    exact hne (congrArg Prod.fst hcontr)
  exact List.Pairwise.forall hsym hdisj h1 h2 hpairne g hg1 hg2

/-- A version parsed from a processed entry is the real version of its
stored Kernel, so the orphan pass sees it. -/
theorem hasRK_of_parsedVersion {md : ModuleDict} {excl : List KernelFileType}
    {bd : Path} {entries : List BootEntry} {e : BootEntry} {v : String}
    (hx : KernelFileType.kernel ∉ excl)
    (hn : ((entries.filter goodEntry).map BootEntry.name).Nodup)
    (hki : ∀ p ∈ md, ∀ g ∈ p.2, g.isKI = false)
    (hnd : (e.files.map BootFile.name).Nodup)
    (heg : e ∈ entries.filter goodEntry) (hv : v ∈ parsedVersions e.files) :
    hasRK (bootScan md excl bd entries) v = true := by
  rcases mem_parsedVersions.mp hv with ⟨f, hf, _, hk, hp⟩
  rw [hasRK_iff]
  refine ⟨(e.name, processEntry md excl bd e), ?_,
    real_kv_processEntry hx hnd hki hf hk hp⟩
  rw [bootScan_eq md excl bd entries hn]
  exact List.mem_map_of_mem _ heg

/-- C2 counterexample: two boot-entry directories whose kernel images parse
to the same internal version both receive the module tree keyed by that
version, so a FileRecord is owned by two distinct Kernels in the result. -/
theorem C2_counterexample :
    ∃ k1 ∈ (find_kernels [("v", [FileRecord.generic ["m"] KernelFileType.modules])]
        [] [⟨"a", false, true, [⟨"linux", some "v"⟩]⟩,
            ⟨"b", false, true, [⟨"linux", some "v"⟩]⟩] []).getD [],
      ∃ k2 ∈ (find_kernels [("v", [FileRecord.generic ["m"] KernelFileType.modules])]
        [] [⟨"a", false, true, [⟨"linux", some "v"⟩]⟩,
            ⟨"b", false, true, [⟨"linux", some "v"⟩]⟩] []).getD [],
      k1.version ≠ k2.version ∧
      ∃ g ∈ k1.all_files, g ∈ k2.all_files := by
  decide

/-- C2 amended: provided no two processed boot entries parse to the same
internal version (and the module mapping is well-formed: distinct keys,
pairwise disjoint file sets of plain module files located outside the boot
directory), the all_files collections of the Kernels returned by
find_kernels are pairwise disjoint; when two entries do parse to the same
internal version, both Kernels receive that module tree's files, as the
counterexample shows. -/
theorem C2_no_shared_ownership (md : ModuleDict) (excl : List KernelFileType)
    (bd : Path) (entries : List BootEntry)
    (hx : KernelFileType.kernel ∉ excl)
    (hn : ((entries.filter goodEntry).map BootEntry.name).Nodup)
    (hmd : (md.map Prod.fst).Nodup)
    (hmf : ModuleFilesOk md)
    (hFiles : ∀ e ∈ entries, (e.files.map BootFile.name).Nodup)
    (hPaths : ∀ p ∈ md, ∀ g ∈ p.2, pathStarts bd g.path = false)
    (hdisj : List.Pairwise (fun p q => ∀ g ∈ p.2, g ∉ q.2) md)
    (hpv : List.Pairwise (fun a b => ∀ v, v ∈ parsedVersions a.files →
      v ∉ parsedVersions b.files) (entries.filter goodEntry)) :
    ∃ ks, find_kernels md bd entries excl = some ks ∧
      List.Pairwise (fun k1 k2 => ∀ g ∈ k1.all_files, g ∉ k2.all_files) ks := by
  have hki := ModuleFilesOk.isKI hmf
  refine ⟨_, find_kernels_eq md excl bd entries hx hn hmd hki, ?_⟩
  have hd0 : ∀ e ∈ entries.filter goodEntry,
      (e.name, processEntry md excl bd e) ∈ bootScan md excl bd entries := by
    intro e he
    rw [bootScan_eq md excl bd entries hn]
    exact List.mem_map_of_mem _ he
  have hshape : ∀ e ∈ entries.filter goodEntry, ∀ g : FileRecord,
      g ∈ (processEntry md excl bd e).all_files ++
        orphanExtra (bootScan md excl bd entries) md e.name →
      pathStarts (bd ++ [e.name]) g.path = true ∨
      (∃ v fs, v ∈ parsedVersions e.files ∧ (v, fs) ∈ md ∧ g ∈ fs) ∨
      (∃ fs, (e.name, fs) ∈ md ∧ g ∈ fs ∧
        hasRK (bootScan md excl bd entries) e.name = false) := by
    intro e _ g hg
    rcases List.mem_append.mp hg with h | h
    · rcases mem_kernel_files_shape h with h2 | ⟨v, hv, hdg⟩
      · exact Or.inl h2
      · rcases mem_dictGet hdg with ⟨fs, hmem, hgfs⟩
        exact Or.inr (Or.inl ⟨v, fs, hv, hmem, hgfs⟩)
    · rcases mem_orphanExtra h with ⟨fs, hmem, hgfs, hrk⟩
      exact Or.inr (Or.inr ⟨fs, hmem, hgfs, hrk⟩)
  have hcore : ∀ e1 ∈ entries.filter goodEntry, ∀ e2 ∈ entries.filter goodEntry,
      e1.name ≠ e2.name →
      (∀ v, v ∈ parsedVersions e1.files → v ∉ parsedVersions e2.files) →
      ∀ g ∈ (processEntry md excl bd e1).all_files ++
          orphanExtra (bootScan md excl bd entries) md e1.name,
        g ∉ (processEntry md excl bd e2).all_files ++
          orphanExtra (bootScan md excl bd entries) md e2.name := by
    intro e1 he1 e2 he2 hne hpv12 g hg1 hg2
    rcases hshape e1 he1 g hg1 with
        hA1 | ⟨v1, fs1, hv1, hm1, hg1m⟩ | ⟨fs1, hm1, hg1m, hrk1⟩ <;>
      rcases hshape e2 he2 g hg2 with
        hA2 | ⟨v2, fs2, hv2, hm2, hg2m⟩ | ⟨fs2, hm2, hg2m, hrk2⟩
    · exact hne (pathStarts_snoc_inj hA1 hA2)
    · have hfalse := hPaths (v2, fs2) hm2 g hg2m
      rw [pathStarts_of_snoc hA1] at hfalse
      simp at hfalse
    · have hfalse := hPaths (e2.name, fs2) hm2 g hg2m
      rw [pathStarts_of_snoc hA1] at hfalse
      simp at hfalse
    · have hfalse := hPaths (v1, fs1) hm1 g hg1m
      rw [pathStarts_of_snoc hA2] at hfalse
      simp at hfalse
    · by_cases hvv : v1 = v2
      · exact hpv12 v1 hv1 (by rw [hvv]; exact hv2)
      · exact md_value_disjoint hdisj hm1 hm2 hvv hg1m hg2m
    · by_cases hvv : v1 = e2.name
      · have htrue := @hasRK_of_parsedVersion md excl bd entries e1 v1 hx hn hki
          (hFiles e1 (List.mem_of_mem_filter he1)) he1 hv1
        rw [hvv, hrk2] at htrue
        simp at htrue
      · exact md_value_disjoint hdisj hm1 hm2 hvv hg1m hg2m
    · have hfalse := hPaths (e1.name, fs1) hm1 g hg1m
      rw [pathStarts_of_snoc hA2] at hfalse
      simp at hfalse
    · by_cases hvv : e1.name = v2
      · have htrue := @hasRK_of_parsedVersion md excl bd entries e2 v2 hx hn hki
          (hFiles e2 (List.mem_of_mem_filter he2)) he2 hv2
        rw [← hvv, hrk1] at htrue
        simp at htrue
      · exact md_value_disjoint hdisj hm1 hm2 hvv hg1m hg2m
    · exact md_value_disjoint hdisj hm1 hm2 hne hg1m hg2m
  rw [List.pairwise_append]
  refine ⟨?_, ?_, ?_⟩
  · rw [List.pairwise_map]
    have hnp : List.Pairwise (fun a b : BootEntry => a.name ≠ b.name)
        (entries.filter goodEntry) := List.pairwise_map.mp hn
    refine List.Pairwise.imp_of_mem ?_ (hpv.and hnp)
    intro e1 e2 h1 h2 hcomb
    exact hcore e1 h1 e2 h2 hcomb.2 hcomb.1
  · rw [List.pairwise_map]
    unfold newOrphans
    rw [List.pairwise_map]
    refine List.Pairwise.imp ?_ (List.Pairwise.filter _ hdisj)
    intro p q h
    exact h
  · intro a ha b hb g hga hgb
    rcases List.mem_map.mp ha with ⟨e, he, heqa⟩
    rcases List.mem_map.mp hb with ⟨q, hq, heqb⟩
    unfold newOrphans at hq
    rcases List.mem_map.mp hq with ⟨p, hp, heqq⟩
    rw [List.mem_filter] at hp
    have hcond := hp.2
    rw [Bool.and_eq_true, Bool.not_eq_true', Bool.not_eq_true'] at hcond
    rw [← heqa] at hga
    rw [← heqb, ← heqq] at hgb
    have hgb2 : g ∈ p.2 := hgb
    have hpmem : (p.1, p.2) ∈ md := hp.1
    rcases hshape e he g hga with hA | ⟨v, fs, hv, hm, hgm⟩ | ⟨fs, hm, hgm, _⟩
    · have hfalse := hPaths p hp.1 g hgb2
      rw [pathStarts_of_snoc hA] at hfalse
      simp at hfalse
    · by_cases hvv : v = p.1
      · have htrue := @hasRK_of_parsedVersion md excl bd entries e v hx hn hki
          (hFiles e (List.mem_of_mem_filter he)) he hv
        rw [hvv, hcond.1] at htrue
        simp at htrue
      · exact md_value_disjoint hdisj hm hpmem hvv hgm hgb2
    · have hmemd0 := hd0 e he
      have hne2 : e.name ≠ p.1 := by
        intro hcontr
        exact keyMem_eq_false.mp hcond.2 _ hmemd0 hcontr
      exact md_value_disjoint hdisj hm hpmem hne2 hgm hgb2

theorem C2_witness :
    ∃ ks, find_kernels
        [("v1", [FileRecord.generic ["lib", "v1", "m"] KernelFileType.modules])]
        ["b"] [⟨"5.10", false, true, [⟨"linux", some "v1"⟩]⟩] [] = some ks ∧
      List.Pairwise (fun k1 k2 => ∀ g ∈ k1.all_files, g ∉ k2.all_files) ks :=
  C2_no_shared_ownership
    [("v1", [FileRecord.generic ["lib", "v1", "m"] KernelFileType.modules])]
    [] ["b"] [⟨"5.10", false, true, [⟨"linux", some "v1"⟩]⟩]
    (by decide) (by decide) (by decide) (by decide) (by decide) (by decide)
    (by decide) (by decide)

theorem C1_witness :
    ∃ ks, find_kernels [("9.9", [FileRecord.generic ["m1"] KernelFileType.modules])]
        ["b"] [⟨"5.10", false, true, []⟩] [] = some ks ∧
      ∃ k ∈ ks, k.version = "9.9" ∧
        ((∃ e ∈ ([⟨"5.10", false, true, []⟩] : List BootEntry).filter goodEntry,
            e.name = "9.9" ∧
            k.all_files = (processEntry
              [("9.9", [FileRecord.generic ["m1"] KernelFileType.modules])] [] ["b"]
              e).all_files ++ [FileRecord.generic ["m1"] KernelFileType.modules]) ∨
         ((∀ e ∈ ([⟨"5.10", false, true, []⟩] : List BootEntry).filter goodEntry,
            e.name ≠ "9.9") ∧
          k.all_files = [FileRecord.generic ["m1"] KernelFileType.modules])) :=
  C1_orphan_merge [("9.9", [FileRecord.generic ["m1"] KernelFileType.modules])]
    [] ["b"] [⟨"5.10", false, true, []⟩] "9.9"
    [FileRecord.generic ["m1"] KernelFileType.modules]
    (by decide) (by decide) (by decide) (by decide) (by decide) (by decide)

end Eclean
